import Mathlib

/-!
Verification of git-context: task state machine, local persistence, search
and advisory locks.

A shallow embedding of the Go packages `internal/model`, `internal/storage`
and `internal/cmd`, followed by theorems about them.

Conventions of the embedding

* A Go `time.Time` that went through `.UTC()` or was decoded from a `...Z`
  text is an instant on the UTC time line; it is represented by its number of
  nanoseconds since the Unix epoch.  `time.Now()` is an explicit argument.
* Go strings are represented by `String` (valid Unicode text), slices by
  `List` (a nil slice and an empty slice are the same list).  A command-line
  argument with a byte that is not valid UTF-8 is no `String`; where a claim
  turns on one, the state it leaves in the repository is given directly
  (`Sample.latin1Store`).
* The directory `.git/context/` is represented by its contents.  A file that
  holds JSON is represented by the document it holds (or marked malformed);
  the text of a timestamp inside a document is represented by the instant it
  denotes under its layout.  The medium is assumed readable and writable, so
  the only failures are the ones the Go code can produce on a healthy disk.
* `model.GetAuthorShort()` reads the host configuration; its result is the
  `author` argument of the command handlers.
* Library functions whose tables are not reproduced are arguments:
  `sha256.Sum256` (`sum256`) and the Unicode case table behind
  `unicode.ToLower` for code points above ASCII (`unicodeLower`).  The one I/O
  fault that a claim speaks of, a failing `os.ReadDir` in `ListMemories`, is
  the argument `readDirFault`.
-/

namespace GitContext

/-! ## `time` -/

/-- A UTC instant with nanosecond precision (nanoseconds since the Unix epoch). -/
structure Time where
  unixNano : Int
  deriving DecidableEq, Repr

namespace Time

/-- Nanoseconds per second. -/
def nanosPerSecond : Int := 1000000000

/-- The duration `time.Hour`, in nanoseconds. -/
def Hour : Int := 3600 * nanosPerSecond

/-- Whole seconds since the epoch (`t.Unix()`), rounding towards the past. -/
def Unix (t : Time) : Int := t.unixNano / nanosPerSecond

/-- The instant of a whole number of seconds since the epoch (`time.Unix(sec, 0).UTC()`). -/
def ofUnix (sec : Int) : Time := ⟨sec * nanosPerSecond⟩

/-- The zero value `time.Time{}`: 0001-01-01T00:00:00Z. -/
def zero : Time := ofUnix (-62135596800)

/-- The instant with its sub-second part dropped. -/
def truncSecond (t : Time) : Time := ofUnix t.Unix

/-- Unix second of 0000-01-01T00:00:00Z. -/
def minYearUnix : Int := -62167219200

/-- Unix second of 10000-01-01T00:00:00Z. -/
def endYearUnix : Int := 253402300800

/-- The year of the instant lies in `[0, 9999]`: the range in which
`Time.MarshalJSON` succeeds and in which the year is rendered with four digits. -/
def yearInRange (t : Time) : Bool :=
  decide (minYearUnix ≤ t.Unix) && decide (t.Unix < endYearUnix)

/-- Transcription of `t.After(u)`. -/
def After (t u : Time) : Bool := decide (u.unixNano < t.unixNano)

/-- Transcription of `t.Add(d)`, the duration in nanoseconds. -/
def Add (t : Time) (d : Int) : Time := ⟨t.unixNano + d⟩

end Time

/-! ## `internal/model` -/

namespace model

/-- A byte. -/
abbrev Byte := Fin 256

/-- Lower-case hexadecimal digit of a value below sixteen. -/
def hexDigit (n : Nat) : Char :=
  match n with
  | 0 => '0' | 1 => '1' | 2 => '2' | 3 => '3'
  | 4 => '4' | 5 => '5' | 6 => '6' | 7 => '7'
  | 8 => '8' | 9 => '9' | 10 => 'a' | 11 => 'b'
  | 12 => 'c' | 13 => 'd' | 14 => 'e' | _ => 'f'

/-- Two hexadecimal digits of one byte, high nibble first. -/
def hexByte (b : Byte) : List Char := [hexDigit (b.val / 16), hexDigit (b.val % 16)]

/-- Transcription of `hex.EncodeToString`. -/
def hexEncodeToString (bytes : List Byte) : String :=
  String.mk (bytes.flatMap hexByte)

/-- The buffer `make([]byte, 4)` after `rand.Read` filled it. -/
structure RandBuf where
  b0 : Byte
  b1 : Byte
  b2 : Byte
  b3 : Byte
  deriving DecidableEq, Repr

/-- The four bytes of the buffer, in order. -/
def RandBuf.toList (r : RandBuf) : List Byte := [r.b0, r.b1, r.b2, r.b3]

/-- Transcription of `GenerateID`: the hex encoding of the random buffer. -/
def GenerateID (bytes : RandBuf) : String := hexEncodeToString bytes.toList

/-- The type `TaskStatus` is a string type in the source. -/
abbrev TaskStatus := String

/-- Status constant `TaskOpen`. -/
def TaskOpen : TaskStatus := "open"

/-- Status constant `TaskClaimed`. -/
def TaskClaimed : TaskStatus := "claimed"

/-- Status constant `TaskDone`. -/
def TaskDone : TaskStatus := "done"

/-- A comment on a task. -/
structure Comment where
  Author : String
  Content : String
  CreatedAt : Time
  deriving DecidableEq, Repr

/-- A work item. `DoneAt` is the nullable `*time.Time`. -/
structure Task where
  ID : String
  Title : String
  Description : String
  Status : TaskStatus
  Owner : String
  CreatedBy : String
  CreatedAt : Time
  UpdatedAt : Time
  DoneAt : Option Time
  BlockedBy : List String
  Blocks : List String
  Comments : List Comment
  Shared : Bool
  deriving DecidableEq, Repr

/-- Transcription of `NewTask`; `bytes` is the random buffer of `GenerateID`
and `now` the reading of `time.Now().UTC()`. -/
def NewTask (title description author : String) (shared : Bool)
    (bytes : RandBuf) (now : Time) : Task :=
  { ID := "task-" ++ GenerateID bytes
    Title := title
    Description := description
    Status := TaskOpen
    Owner := ""
    CreatedBy := author
    CreatedAt := now
    UpdatedAt := now
    DoneAt := none
    BlockedBy := []
    Blocks := []
    Comments := []
    Shared := shared }

/-- Transcription of `Task.Claim`. -/
def Task.Claim (t : Task) (owner : String) (now : Time) : Task :=
  { t with Owner := owner, Status := TaskClaimed, UpdatedAt := now }

/-- Transcription of `Task.Drop`. -/
def Task.Drop (t : Task) (now : Time) : Task :=
  { t with Owner := "", Status := TaskOpen, UpdatedAt := now }

/-- Transcription of `Task.Done`. -/
def Task.Done (t : Task) (now : Time) : Task :=
  { t with Status := TaskDone, DoneAt := some now, UpdatedAt := now }

/-- Transcription of `Task.AddComment`; the clock is read twice, first for the
comment (`now1`) and then for the task (`now2`). -/
def Task.AddComment (t : Task) (author content : String) (now1 now2 : Time) : Task :=
  { t with
    Comments := t.Comments ++ [{ Author := author, Content := content, CreatedAt := now1 }]
    UpdatedAt := now2 }

/-- A note. -/
structure Memory where
  ID : String
  Title : String
  Content : String
  Author : String
  Tags : List String
  CreatedAt : Time
  UpdatedAt : Time
  Shared : Bool
  deriving DecidableEq, Repr

/-- Transcription of `NewMemory`. -/
def NewMemory (title content author : String) (shared : Bool)
    (bytes : RandBuf) (now : Time) : Memory :=
  { ID := GenerateID bytes
    Title := title
    Content := content
    Author := author
    Tags := []
    CreatedAt := now
    UpdatedAt := now
    Shared := shared }

/-- The constant `DefaultLockExpiry`: four hours. -/
def DefaultLockExpiry : Int := 4 * Time.Hour

/-- A lock on a task or file path. -/
structure Lock where
  Target : String
  LockedBy : String
  LockedAt : Time
  ExpiresAt : Time
  deriving DecidableEq, Repr

/-- Transcription of `NewLock`. -/
def NewLock (target lockedBy : String) (now : Time) : Lock :=
  { Target := target
    LockedBy := lockedBy
    LockedAt := now
    ExpiresAt := now.Add DefaultLockExpiry }

/-- Transcription of `Lock.IsExpired`, at the clock reading `now`. -/
def Lock.IsExpired (l : Lock) (now : Time) : Bool := now.After l.ExpiresAt

/-- Transcription of `Lock.IsOwnedBy`. -/
def Lock.IsOwnedBy (l : Lock) (user : String) : Bool := decide (l.LockedBy = user)

end model

/-! ## `internal/storage` -/

namespace storage

open model

/-- Errors that the storage layer and the command handlers return. -/
inductive Err where
  /-- The error of `os.ReadFile` and `os.Remove` for a missing file. -/
  | notExist (name : String)
  /-- The error of `json.Unmarshal` for data it cannot decode. -/
  | invalidJSON
  /-- The error of `time.Parse` for a text outside its layout. -/
  | parseTime
  /-- The error of `Time.MarshalJSON`: year outside of range [0,9999]. -/
  | marshalTime
  /-- An error made by `fmt.Errorf` from a message. -/
  | errorf (msg : String)
  /-- An error made by `fmt.Errorf` with `%w`: a message that wraps a cause. -/
  | wrapf (msg : String) (cause : Err)
  deriving DecidableEq, Repr

/-- The entries of a directory, by name. -/
abbrev Dir (α : Type) := List (String × α)

/-- The entry of that name, if there is one. -/
def Dir.read {α : Type} : Dir α → String → Option α
  | [], _ => none
  | (k, v) :: rest, name => if k = name then some v else Dir.read rest name

/-- Create the entry or replace it. -/
def Dir.write {α : Type} : Dir α → String → α → Dir α
  | [], name, v => [(name, v)]
  | (k, x) :: rest, name, v =>
    if k = name then (k, v) :: rest else (k, x) :: Dir.write rest name v

/-- Remove the entry of that name. -/
def Dir.remove {α : Type} (d : Dir α) (name : String) : Dir α :=
  d.filter (fun e => !decide (e.1 = name))

/-- The text of a timestamp inside a persisted document.  `rendered t` is the
RFC 3339 text in UTC (`...Z`, shortest fraction) of the instant `t`; `other raw`
is a text that no timestamp layout of the program accepts. -/
inductive TimeText where
  | rendered (t : Time)
  | other (raw : String)
  deriving DecidableEq, Repr

/-- Library `t.Format("2006-01-02T15:04:05Z")` on a UTC instant: the layout has
no fraction, so the text is that of the whole second. -/
def formatSeconds (t : Time) : TimeText := .rendered t.truncSecond

/-- Library `time.Parse` of a text ending in `Z`: the instant it denotes, when
the year has four digits; the zero time and an error otherwise. -/
def timeParse (s : TimeText) : Time × Option Err :=
  match s with
  | .rendered t => if t.yearInRange then (t, none) else (Time.zero, some .parseTime)
  | .other _ => (Time.zero, some .parseTime)

/-- Transcription of `parseTime`: `time.Parse("2006-01-02T15:04:05Z", s)`. -/
def parseTime (s : TimeText) : Time × Option Err := timeParse s

/-- Library `Time.UnmarshalJSON`. -/
def unmarshalTime (s : TimeText) : Except Err Time :=
  match timeParse s with
  | (t, none) => .ok t
  | (_, some _) => .error .invalidJSON

/-- A file that is expected to hold a JSON document of shape `α`. -/
inductive JsonFile (α : Type) where
  /-- Bytes that `json.Unmarshal` rejects. -/
  | malformed (raw : String)
  /-- The JSON text of the document `d`. -/
  | doc (d : α)
  deriving DecidableEq, Repr

/-- A string key with `omitempty`: absent when the string is empty. -/
def omitEmptyString (s : String) : Option String := if s = "" then none else some s

/-- A list key with `omitempty`: absent when the list is empty. -/
def omitEmptyList {α : Type} (l : List α) : Option (List α) :=
  match l with
  | [] => none
  | _ :: _ => some l

/-- Apply a fallible function to every element, stopping at the first error. -/
def mapExcept {α β : Type} (f : α → Except Err β) : List α → Except Err (List β)
  | [] => .ok []
  | a :: rest =>
    match f a with
    | .error e => .error e
    | .ok b =>
      match mapExcept f rest with
      | .error e => .error e
      | .ok bs => .ok (b :: bs)

/-- The JSON object of a `Comment`. -/
structure CommentDoc where
  author : String
  content : String
  createdAt : TimeText
  deriving DecidableEq, Repr

/-- The JSON object of a `Task`, by the struct tags: keys with `omitempty`
are optional. -/
structure TaskDoc where
  id : String
  title : String
  description : Option String
  status : String
  owner : Option String
  createdBy : String
  createdAt : TimeText
  updatedAt : TimeText
  doneAt : Option TimeText
  blockedBy : Option (List String)
  blocks : Option (List String)
  comments : Option (List CommentDoc)
  shared : Bool
  deriving DecidableEq, Repr

/-- The keys of a comment. -/
def encodeComment (c : Comment) : CommentDoc :=
  { author := c.Author, content := c.Content, createdAt := .rendered c.CreatedAt }

/-- The keys of a task, `omitempty` applied. -/
def encodeTask (t : Task) : TaskDoc :=
  { id := t.ID
    title := t.Title
    description := omitEmptyString t.Description
    status := t.Status
    owner := omitEmptyString t.Owner
    createdBy := t.CreatedBy
    createdAt := .rendered t.CreatedAt
    updatedAt := .rendered t.UpdatedAt
    doneAt := t.DoneAt.map .rendered
    blockedBy := omitEmptyList t.BlockedBy
    blocks := omitEmptyList t.Blocks
    comments := omitEmptyList (t.Comments.map encodeComment)
    shared := t.Shared }

/-- Every timestamp of the task can be rendered by `Time.MarshalJSON`. -/
def timesInRange (t : Task) : Bool :=
  t.CreatedAt.yearInRange && t.UpdatedAt.yearInRange &&
    t.DoneAt.all Time.yearInRange && t.Comments.all (fun c => c.CreatedAt.yearInRange)

/-- Library `json.MarshalIndent` on a `*Task`: it fails exactly when a
timestamp cannot be rendered. -/
def marshalTask (t : Task) : Except Err TaskDoc :=
  if timesInRange t then .ok (encodeTask t) else .error .marshalTime

/-- Library `json.Unmarshal` into a `Comment`. -/
def unmarshalComment (d : CommentDoc) : Except Err Comment :=
  match unmarshalTime d.createdAt with
  | .error e => .error e
  | .ok at_ => .ok { Author := d.author, Content := d.content, CreatedAt := at_ }

/-- Library `json.Unmarshal` of an optional timestamp key. -/
def unmarshalOptTime (s : Option TimeText) : Except Err (Option Time) :=
  match s with
  | none => .ok none
  | some x =>
    match unmarshalTime x with
    | .error e => .error e
    | .ok t => .ok (some t)

/-- Library `json.Unmarshal` into a `Task`: absent keys leave the zero value. -/
def unmarshalTask (d : TaskDoc) : Except Err Task :=
  match unmarshalTime d.createdAt, unmarshalTime d.updatedAt, unmarshalOptTime d.doneAt,
      mapExcept unmarshalComment (d.comments.getD []) with
  | .ok createdAt, .ok updatedAt, .ok doneAt, .ok comments =>
    .ok { ID := d.id
          Title := d.title
          Description := d.description.getD ""
          Status := d.status
          Owner := d.owner.getD ""
          CreatedBy := d.createdBy
          CreatedAt := createdAt
          UpdatedAt := updatedAt
          DoneAt := doneAt
          BlockedBy := d.blockedBy.getD []
          Blocks := d.blocks.getD []
          Comments := comments
          Shared := d.shared }
  | _, _, _, _ => .error .invalidJSON

/-- The JSON object of the metadata record `meta.json`; the two timestamps are
string keys. -/
structure MetaDoc where
  id : String
  title : String
  author : String
  tags : Option (List String)
  createdAt : TimeText
  updatedAt : TimeText
  shared : Bool
  deriving DecidableEq, Repr

/-- The directory `memory/<id>/` with its two files, each present or not. -/
structure MemoryEntry where
  metaJson : Option (JsonFile MetaDoc)
  contentMd : Option String
  deriving DecidableEq, Repr

/-- The JSON object of a `Lock`. -/
structure LockDoc where
  target : String
  lockedBy : String
  lockedAt : TimeText
  expiresAt : TimeText
  deriving DecidableEq, Repr

/-- Library `json.MarshalIndent` on a `*Lock`. -/
def marshalLock (l : Lock) : Except Err LockDoc :=
  if l.LockedAt.yearInRange && l.ExpiresAt.yearInRange then
    .ok { target := l.Target, lockedBy := l.LockedBy
          lockedAt := .rendered l.LockedAt, expiresAt := .rendered l.ExpiresAt }
  else .error .marshalTime

/-- Library `json.Unmarshal` into a `Lock`. -/
def unmarshalLock (d : LockDoc) : Except Err Lock :=
  match unmarshalTime d.lockedAt, unmarshalTime d.expiresAt with
  | .ok lockedAt, .ok expiresAt =>
    .ok { Target := d.target, LockedBy := d.lockedBy
          LockedAt := lockedAt, ExpiresAt := expiresAt }
  | _, _ => .error .invalidJSON

/-- The contents of `.git/context/`: `memory/<id>/`, `tasks/<id>.json` (by
`<id>`) and `locks/<digest>.json` (by `<digest>`). -/
structure LocalStorage where
  memory : Dir MemoryEntry
  tasks : Dir (JsonFile TaskDoc)
  locks : Dir (JsonFile LockDoc)
  deriving DecidableEq, Repr

/-- A freshly initialised `.git/context/`. -/
def LocalStorage.empty : LocalStorage := { memory := [], tasks := [], locks := [] }

/-- Transcription of `LocalStorage.WriteMemory`. -/
def LocalStorage.WriteMemory (s : LocalStorage) (m : Memory) : Except Err LocalStorage :=
  let metaDoc : MetaDoc :=
    { id := m.ID
      title := m.Title
      author := m.Author
      tags := omitEmptyList m.Tags
      createdAt := formatSeconds m.CreatedAt
      updatedAt := formatSeconds m.UpdatedAt
      shared := m.Shared }
  .ok { s with
        memory := s.memory.write m.ID
          { metaJson := some (.doc metaDoc), contentMd := some m.Content } }

/-- Transcription of `LocalStorage.ReadMemory`; the errors of `parseTime` are
dropped as in the source. -/
def LocalStorage.ReadMemory (s : LocalStorage) (id : String) : Except Err (Option Memory) :=
  match s.memory.read id with
  | none => .error (.notExist ("memory/" ++ id ++ "/meta.json"))
  | some dir =>
    match dir.metaJson with
    | none => .error (.notExist ("memory/" ++ id ++ "/meta.json"))
    | some (.malformed _) => .error .invalidJSON
    | some (.doc metaDoc) =>
      match dir.contentMd with
      | none => .error (.notExist ("memory/" ++ id ++ "/content.md"))
      | some content =>
        let createdAt := (parseTime metaDoc.createdAt).1
        let updatedAt := (parseTime metaDoc.updatedAt).1
        .ok (some
          { ID := metaDoc.id
            Title := metaDoc.title
            Content := content
            Author := metaDoc.author
            Tags := metaDoc.tags.getD []
            CreatedAt := createdAt
            UpdatedAt := updatedAt
            Shared := metaDoc.shared })

/-- Transcription of `LocalStorage.DeleteMemory`: `os.RemoveAll` removes the
directory and returns nil also when there is none. -/
def LocalStorage.DeleteMemory (s : LocalStorage) (id : String) : Except Err LocalStorage :=
  .ok { s with memory := s.memory.remove id }

/-- Transcription of `LocalStorage.WriteTask`. -/
def LocalStorage.WriteTask (s : LocalStorage) (t : Task) : Except Err LocalStorage :=
  match marshalTask t with
  | .error e => .error e
  | .ok data => .ok { s with tasks := s.tasks.write t.ID (.doc data) }

/-- Transcription of `LocalStorage.ReadTask`. -/
def LocalStorage.ReadTask (s : LocalStorage) (id : String) : Except Err (Option Task) :=
  match s.tasks.read id with
  | none => .error (.notExist ("tasks/" ++ id ++ ".json"))
  | some (.malformed _) => .error .invalidJSON
  | some (.doc data) =>
    match unmarshalTask data with
    | .error e => .error e
    | .ok t => .ok (some t)

/-- Transcription of `hashTarget`: the first eight bytes of the SHA-256 digest
of the target, in hexadecimal; `sum256` is the library `sha256.Sum256`. -/
def hashTarget (sum256 : String → List Byte) (target : String) : String :=
  hexEncodeToString ((sum256 target).take 8)

/-- Transcription of `LocalStorage.WriteLock`. -/
def LocalStorage.WriteLock (sum256 : String → List Byte) (s : LocalStorage) (l : Lock) :
    Except Err LocalStorage :=
  match marshalLock l with
  | .error e => .error e
  | .ok data => .ok { s with locks := s.locks.write (hashTarget sum256 l.Target) (.doc data) }

/-- Transcription of `LocalStorage.ReadLock`. -/
def LocalStorage.ReadLock (sum256 : String → List Byte) (s : LocalStorage) (target : String) :
    Except Err (Option Lock) :=
  match s.locks.read (hashTarget sum256 target) with
  | none => .error (.notExist ("locks/" ++ hashTarget sum256 target ++ ".json"))
  | some (.malformed _) => .error .invalidJSON
  | some (.doc data) =>
    match unmarshalLock data with
    | .error e => .error e
    | .ok l => .ok (some l)

/-- The shared backend: no persisted state of its own yet. -/
structure SharedStorage where
  repoPath : String
  deriving DecidableEq, Repr

/-- Transcription of `SharedStorage.WriteMemory`: returns nil and stores nothing. -/
def SharedStorage.WriteMemory (s : SharedStorage) (_m : Memory) : Except Err SharedStorage :=
  .ok s

/-- Transcription of `SharedStorage.ReadMemory`: returns `nil, nil`. -/
def SharedStorage.ReadMemory (_s : SharedStorage) (_id : String) : Except Err (Option Memory) :=
  .ok none

/-- Transcription of `SharedStorage.DeleteMemory`: returns nil. -/
def SharedStorage.DeleteMemory (s : SharedStorage) (_id : String) : Except Err SharedStorage :=
  .ok s

/-- Transcription of `SharedStorage.WriteTask`: returns nil and stores nothing. -/
def SharedStorage.WriteTask (s : SharedStorage) (_t : Task) : Except Err SharedStorage :=
  .ok s

/-- Transcription of `SharedStorage.ReadTask`: returns `nil, nil`. -/
def SharedStorage.ReadTask (_s : SharedStorage) (_id : String) : Except Err (Option Task) :=
  .ok none

/-- Transcription of `SharedStorage.WriteLock`: returns nil and stores nothing. -/
def SharedStorage.WriteLock (s : SharedStorage) (_l : Lock) : Except Err SharedStorage :=
  .ok s

/-- Transcription of `SharedStorage.ReadLock`: returns `nil, nil`. -/
def SharedStorage.ReadLock (_s : SharedStorage) (_target : String) : Except Err (Option Lock) :=
  .ok none

/-- The pair of backends of one invocation. -/
structure MultiStorage where
  Local : LocalStorage
  Shared : SharedStorage
  deriving DecidableEq, Repr

end storage

/-! ## `internal/cmd` -/

namespace cmd

open model storage

/-- What a command handler leaves behind: the two backends and the error it
returned (`none` for nil).  Printed output is not represented. -/
structure Outcome where
  store : MultiStorage
  err : Option Err
  deriving DecidableEq, Repr

/-- The pointer of a `(pointer, error)` result whose error is discarded with
`_`: nil when the call failed. -/
def pointerOf {α : Type} : Except Err (Option α) → Option α
  | .ok v => v
  | .error _ => none

/-- Two decimal digits. -/
def twoDigits (n : Nat) : String := String.mk [Nat.digitChar (n / 10), Nat.digitChar (n % 10)]

/-- Library `t.Format("15:04")` on a UTC instant: hour and minute of the day. -/
def formatClock (t : Time) : String :=
  twoDigits ((t.Unix % 86400) / 3600).toNat ++ ":" ++ twoDigits ((t.Unix % 3600) / 60).toNat

/-- Transcription of `findTask`: local first, then shared. -/
def findTask (store : MultiStorage) (id : String) : Option Task × String :=
  match store.Local.ReadTask id with
  | .ok (some t) => (some t, "local")
  | _ =>
    match store.Shared.ReadTask id with
    | .ok (some t) => (some t, "shared")
    | _ => (none, "")

/-- The tail that the task handlers share: the block `// Save to correct
storage` (the write goes to the backend the task was found in) and the return,
an error wrapped with the message `failure` of the handler when the write
failed and nil otherwise. -/
def saveTask (store : MultiStorage) (storageType : String) (t : Task) (failure : String) :
    Outcome :=
  if storageType = "local" then
    match store.Local.WriteTask t with
    | .ok l => ⟨{ store with Local := l }, none⟩
    | .error e => ⟨store, some (.wrapf failure e)⟩
  else
    match store.Shared.WriteTask t with
    | .ok sh => ⟨{ store with Shared := sh }, none⟩
    | .error e => ⟨store, some (.wrapf failure e)⟩

/-- Transcription of `runTaskClaim`. -/
def runTaskClaim (store : MultiStorage) (author : String) (now : Time) (id : String) :
    Outcome :=
  match findTask store id with
  | (none, _) => ⟨store, some (.errorf ("not found: " ++ id))⟩
  | (some t, storageType) =>
    if t.Status = TaskClaimed ∧ t.Owner ≠ author then
      ⟨store, some (.errorf ("already claimed by " ++ t.Owner))⟩
    else
      saveTask store storageType (t.Claim author now) "failed to claim: "

/-- Transcription of `runTaskDrop`. -/
def runTaskDrop (store : MultiStorage) (author : String) (now : Time) (id : String) :
    Outcome :=
  match findTask store id with
  | (none, _) => ⟨store, some (.errorf ("not found: " ++ id))⟩
  | (some t, storageType) =>
    if t.Owner ≠ author then
      ⟨store, some (.errorf ("not owned by you (owner: " ++ t.Owner ++ ")"))⟩
    else
      saveTask store storageType (t.Drop now) "failed to drop: "

/-- Transcription of `runTaskDone`. -/
def runTaskDone (store : MultiStorage) (now : Time) (id : String) : Outcome :=
  match findTask store id with
  | (none, _) => ⟨store, some (.errorf ("not found: " ++ id))⟩
  | (some t, storageType) => saveTask store storageType (t.Done now) "failed to mark done: "

/-- Transcription of `runTaskComment`. -/
def runTaskComment (store : MultiStorage) (author message : String) (now1 now2 : Time)
    (id : String) : Outcome :=
  match findTask store id with
  | (none, _) => ⟨store, some (.errorf ("not found: " ++ id))⟩
  | (some t, storageType) =>
    saveTask store storageType (t.AddComment author message now1 now2)
      "failed to add comment: "

/-- Transcription of `runTaskAdd`: `args` are the words of the title,
`taskDescription` the value of the `-d` flag, `flagShared` selects the backend of
`getStorage`. -/
def runTaskAdd (store : MultiStorage) (flagShared : Bool) (taskDescription author : String)
    (bytes : RandBuf) (now : Time) (args : List String) : Outcome :=
  let title := " ".intercalate args
  let t := NewTask title taskDescription author flagShared bytes now
  if flagShared then
    match store.Shared.WriteTask t with
    | .ok sh => ⟨{ store with Shared := sh }, none⟩
    | .error e => ⟨store, some (.wrapf "failed to create task: " e)⟩
  else
    match store.Local.WriteTask t with
    | .ok l => ⟨{ store with Local := l }, none⟩
    | .error e => ⟨store, some (.wrapf "failed to create task: " e)⟩

/-- One invocation of a task command on a given task identifier: who runs it
and what the clock reads. -/
inductive TaskCmd where
  | claim (author : String) (now : Time)
  | drop (author : String) (now : Time)
  | done (now : Time)
  | comment (author message : String) (now1 now2 : Time)
  deriving DecidableEq, Repr

/-- The name of the actor of an invocation, when the handler asks for one
(`runTaskDone` does not). -/
def TaskCmd.actor : TaskCmd → Option String
  | .claim author _ => some author
  | .drop author _ => some author
  | .done _ => none
  | .comment author _ _ _ => some author

/-- Run the handler of the command. -/
def runTaskCmd (store : MultiStorage) (id : String) : TaskCmd → Outcome
  | .claim author now => runTaskClaim store author now id
  | .drop author now => runTaskDrop store author now id
  | .done now => runTaskDone store now id
  | .comment author message now1 now2 => runTaskComment store author message now1 now2 id

/-- Run a sequence of invocations one after the other, each on what the
previous one left behind, whether it failed or not. -/
def runTaskCmds (store : MultiStorage) (id : String) : List TaskCmd → MultiStorage
  | [] => store
  | c :: rest => runTaskCmds (runTaskCmd store id c).store id rest

/-- Transcription of `runRm`. -/
def runRm (store : MultiStorage) (id : String) : Outcome :=
  match store.Local.DeleteMemory id with
  | .ok l => ⟨{ store with Local := l }, none⟩
  | .error _ =>
    match store.Shared.DeleteMemory id with
    | .ok sh => ⟨{ store with Shared := sh }, none⟩
    | .error _ => ⟨store, some (.errorf ("not found: " ++ id))⟩

/-- Transcription of `runLock`.  The clock is read by each `IsExpired` (`now1`
for the local lock, `now2` for the shared one) and by `NewLock` (`now3`);
`flagShared` selects the backend of `getStorage`. -/
def runLock (sum256 : String → List Byte) (store : MultiStorage) (flagShared : Bool)
    (author : String) (now1 now2 now3 : Time) (target : String) : Outcome :=
  let existingLocal := pointerOf (store.Local.ReadLock sum256 target)
  let existingShared := pointerOf (store.Shared.ReadLock target)
  match existingLocal.filter (fun l => !l.IsExpired now1) with
  | some l =>
    ⟨store, some (.errorf ("already locked by " ++ l.LockedBy ++
      " (expires: " ++ formatClock l.ExpiresAt ++ ")"))⟩
  | none =>
    match existingShared.filter (fun l => !l.IsExpired now2) with
    | some l =>
      ⟨store, some (.errorf ("already locked by " ++ l.LockedBy ++
        " (expires: " ++ formatClock l.ExpiresAt ++ ")"))⟩
    | none =>
      let lock := NewLock target author now3
      if flagShared then
        match store.Shared.WriteLock lock with
        | .ok sh => ⟨{ store with Shared := sh }, none⟩
        | .error e => ⟨store, some (.wrapf "failed to lock: " e)⟩
      else
        match store.Local.WriteLock sum256 lock with
        | .ok l => ⟨{ store with Local := l }, none⟩
        | .error e => ⟨store, some (.wrapf "failed to lock: " e)⟩

end cmd

/-! ## `internal/model`: search and dependencies -/

namespace model

/-- Library `unicode.ToLower`.  For a code point up to `unicode.MaxASCII` the
library has an explicit branch: `A` to `Z` are moved by `'a' - 'A'` and every
other one is returned as it is.  Above that the library consults the Unicode
case table, which is the argument `unicodeLower`. -/
def lowerRune (unicodeLower : Char → Char) (c : Char) : Char :=
  if c.toNat ≤ 127 then
    if 65 ≤ c.toNat ∧ c.toNat ≤ 90 then Char.ofNat (c.toNat + 32) else c
  else unicodeLower c

/-- Library `strings.ToLower` on valid text: every code point is mapped by
`unicode.ToLower`. -/
def ToLower (unicodeLower : Char → Char) (s : String) : String :=
  String.mk (s.data.map (lowerRune unicodeLower))

/-- The text `needle` stands at the very start of `hay`. -/
def startsWithChars : List Char → List Char → Bool
  | _, [] => true
  | [], _ :: _ => false
  | h :: hs, n :: ns => (h == n) && startsWithChars hs ns

/-- The text `needle` stands somewhere in `hay`: at its start or in its tail. -/
def containsChars : List Char → List Char → Bool
  | [], needle => startsWithChars [] needle
  | h :: hs, needle => startsWithChars (h :: hs) needle || containsChars hs needle

/-- Library `strings.Contains` on valid text.  The library compares bytes; in
valid UTF-8 an encoded text can only begin where a code point begins, so the
comparison of code points finds the same occurrences. -/
def Contains (s substr : String) : Bool := containsChars s.data substr.data

/-- Transcription of `Memory.MatchesSearch`. -/
def Memory.MatchesSearch (unicodeLower : Char → Char) (m : Memory) (query : String) : Bool :=
  let query := ToLower unicodeLower query
  Contains (ToLower unicodeLower m.Title) query ||
    Contains (ToLower unicodeLower m.Content) query

/-- Transcription of `Task.MatchesSearch`. -/
def Task.MatchesSearch (unicodeLower : Char → Char) (t : Task) (query : String) : Bool :=
  let query := ToLower unicodeLower query
  Contains (ToLower unicodeLower t.Title) query ||
    Contains (ToLower unicodeLower t.Description) query

/-- The loop of `Task.IsBlocked` over the identifiers that are left; `tasks`
is the Go map, `none` for a key it does not have. -/
def isBlockedLoop (tasks : String → Option Task) : List String → Bool
  | [] => false
  | id :: rest =>
    match tasks id with
    | some blocker => if blocker.Status ≠ TaskDone then true else isBlockedLoop tasks rest
    | none => isBlockedLoop tasks rest

/-- Transcription of `Task.IsBlocked`. -/
def Task.IsBlocked (t : Task) (tasks : String → Option Task) : Bool :=
  isBlockedLoop tasks t.BlockedBy

/-- The wording of the specification, contiguous substring: `s` is some text,
then `sub`, then some text. -/
def IsContiguousSubstring (sub s : String) : Prop :=
  ∃ before after : List Char, s.data = before ++ sub.data ++ after

/-- Two code points are equal or are one ASCII letter in its two cases (`A` to
`Z` are 65 to 90, the small letter is 32 further). -/
def sameAsciiLetter (c d : Char) : Bool :=
  (c == d) ||
    (decide (65 ≤ c.toNat ∧ c.toNat ≤ 90) && decide (d.toNat = c.toNat + 32)) ||
    (decide (65 ≤ d.toNat ∧ d.toNat ≤ 90) && decide (c.toNat = d.toNat + 32))

/-- Two texts of the same length that differ at most in the case of ASCII
letters, position by position. -/
def sameUpToAsciiCaseChars : List Char → List Char → Bool
  | [], [] => true
  | c :: cs, d :: ds => sameAsciiLetter c d && sameUpToAsciiCaseChars cs ds
  | _, _ => false

/-- One text is the other with the case of some ASCII letters changed. -/
def sameUpToAsciiCase (a b : String) : Bool := sameUpToAsciiCaseChars a.data b.data

end model

/-! ## `internal/storage`: listing, searching, deleting locks -/

namespace storage

open model

/-- The loop of `ListMemories`: every directory entry is read by name and kept
when the read succeeds. -/
def listMemoriesLoop (read : String → Except Err (Option Memory)) :
    List Memory → List String → List Memory
  | memories, [] => memories
  | memories, name :: rest =>
    match read name with
    | .ok (some m) => listMemoriesLoop read (memories ++ [m]) rest
    | _ => listMemoriesLoop read memories rest

/-- Transcription of `LocalStorage.ListMemories`.  `readDirFault` is the error of
`os.ReadDir` when the directory exists and cannot be read (`none` on a healthy
medium); a directory that does not exist lists nothing and is no error. -/
def LocalStorage.ListMemories (s : LocalStorage) (readDirFault : Option Err) :
    Except Err (List Memory) :=
  match readDirFault with
  | some e => .error e
  | none => .ok (listMemoriesLoop s.ReadMemory [] (s.memory.map (fun e => e.1)))

/-- The loop of `SearchMemories`: a memory is appended when it matches. -/
def searchMemoriesLoop (unicodeLower : Char → Char) (query : String) :
    List Memory → List Memory → List Memory
  | results, [] => results
  | results, m :: rest =>
    if m.MatchesSearch unicodeLower query then
      searchMemoriesLoop unicodeLower query (results ++ [m]) rest
    else searchMemoriesLoop unicodeLower query results rest

/-- Transcription of `LocalStorage.SearchMemories`. -/
def LocalStorage.SearchMemories (unicodeLower : Char → Char) (s : LocalStorage)
    (readDirFault : Option Err) (query : String) : Except Err (List Memory) :=
  match s.ListMemories readDirFault with
  | .error e => .error e
  | .ok memories => .ok (searchMemoriesLoop unicodeLower query [] memories)

/-- Transcription of `LocalStorage.DeleteLock`: `os.Remove` fails when the file
is not there. -/
def LocalStorage.DeleteLock (sum256 : String → List Byte) (s : LocalStorage) (target : String) :
    Except Err LocalStorage :=
  match s.locks.read (hashTarget sum256 target) with
  | none => .error (.notExist ("locks/" ++ hashTarget sum256 target ++ ".json"))
  | some _ => .ok { s with locks := s.locks.remove (hashTarget sum256 target) }

/-- The loop of `ListLocks`: the file of every entry is decoded and kept when
that succeeds. -/
def listLocksLoop : List Lock → List (String × JsonFile LockDoc) → List Lock
  | locks, [] => locks
  | locks, (_, .malformed _) :: rest => listLocksLoop locks rest
  | locks, (_, .doc data) :: rest =>
    match unmarshalLock data with
    | .ok l => listLocksLoop (locks ++ [l]) rest
    | .error _ => listLocksLoop locks rest

/-- Transcription of `LocalStorage.ListLocks` on a healthy medium. -/
def LocalStorage.ListLocks (s : LocalStorage) : Except Err (List Lock) :=
  .ok (listLocksLoop [] s.locks)

/-- Transcription of `SharedStorage.ListMemories`: returns `nil, nil`. -/
def SharedStorage.ListMemories (_s : SharedStorage) : Except Err (List Memory) :=
  .ok []

/-- Transcription of `SharedStorage.SearchMemories`: returns `nil, nil`. -/
def SharedStorage.SearchMemories (_s : SharedStorage) (_query : String) :
    Except Err (List Memory) :=
  .ok []

/-- Transcription of `SharedStorage.ListTasks`: returns `nil, nil`. -/
def SharedStorage.ListTasks (_s : SharedStorage) : Except Err (List Task) :=
  .ok []

/-- Transcription of `SharedStorage.ListLocks`: returns `nil, nil`. -/
def SharedStorage.ListLocks (_s : SharedStorage) : Except Err (List Lock) :=
  .ok []

/-- Transcription of `SharedStorage.DeleteLock`: returns nil. -/
def SharedStorage.DeleteLock (s : SharedStorage) (_target : String) : Except Err SharedStorage :=
  .ok s

end storage

/-! ## `internal/cmd`: lookup by identifier, unlock -/

namespace cmd

open model storage

/-- The body of `findMemory` over the results of its two calls,
`store.Local.ReadMemory(id)` and `store.Shared.ReadMemory(id)`; both backends
are values of the interface `Storage`. -/
def findMemoryFrom (localRead sharedRead : Except Err (Option Memory)) :
    Option Memory × String :=
  match localRead with
  | .ok (some m) => (some m, "local")
  | _ =>
    match sharedRead with
    | .ok (some m) => (some m, "shared")
    | _ => (none, "")

/-- Transcription of `findMemory`: local first, then shared. -/
def findMemory (store : MultiStorage) (id : String) : Option Memory × String :=
  match store.Local.ReadMemory id with
  | .ok (some m) => (some m, "local")
  | _ =>
    match store.Shared.ReadMemory id with
    | .ok (some m) => (some m, "shared")
    | _ => (none, "")

/-- The body of `findTask` over the results of its two calls,
`store.Local.ReadTask(id)` and `store.Shared.ReadTask(id)`. -/
def findTaskFrom (localRead sharedRead : Except Err (Option Task)) : Option Task × String :=
  match localRead with
  | .ok (some t) => (some t, "local")
  | _ =>
    match sharedRead with
    | .ok (some t) => (some t, "shared")
    | _ => (none, "")

/-- The slice of a `(slice, error)` result whose error is discarded with `_`:
nil when the call failed. -/
def sliceOf {α : Type} : Except Err (List α) → List α
  | .ok l => l
  | .error _ => []

/-- The value left by a call whose error is ignored: the new state when it
succeeded, the old one when it failed. -/
def orKeep {σ : Type} (old : σ) : Except Err σ → σ
  | .ok new => new
  | .error _ => old

/-- The first loop of `unlockAll`: every listed lock that the author owns is
deleted from the local backend, the error of the deletion ignored. -/
def unlockLocalLoop (sum256 : String → List Byte) (author : String) :
    MultiStorage → List Lock → MultiStorage
  | store, [] => store
  | store, l :: rest =>
    if l.IsOwnedBy author then
      unlockLocalLoop sum256 author
        { store with Local := orKeep store.Local (store.Local.DeleteLock sum256 l.Target) } rest
    else unlockLocalLoop sum256 author store rest

/-- The second loop of `unlockAll`, over the locks of the shared backend. -/
def unlockSharedLoop (author : String) : MultiStorage → List Lock → MultiStorage
  | store, [] => store
  | store, l :: rest =>
    if l.IsOwnedBy author then
      unlockSharedLoop author
        { store with Shared := orKeep store.Shared (store.Shared.DeleteLock l.Target) } rest
    else unlockSharedLoop author store rest

/-- Transcription of `unlockAll`: it always returns nil. -/
def unlockAll (sum256 : String → List Byte) (store : MultiStorage) (author : String) : Outcome :=
  let localLocks := sliceOf store.Local.ListLocks
  let store1 := unlockLocalLoop sum256 author store localLocks
  let sharedLocks := sliceOf store1.Shared.ListLocks
  let store2 := unlockSharedLoop author store1 sharedLocks
  ⟨store2, none⟩

/-- Transcription of `runUnlock`; `args` are the positional arguments. -/
def runUnlock (sum256 : String → List Byte) (store : MultiStorage) (author : String)
    (args : List String) : Outcome :=
  match args with
  | [] => unlockAll sum256 store author
  | target :: _ =>
    match pointerOf (store.Local.ReadLock sum256 target) with
    | some localLock =>
      if !localLock.IsOwnedBy author then
        ⟨store, some (.errorf ("cannot unlock: owned by " ++ localLock.LockedBy))⟩
      else
        ⟨{ store with Local := orKeep store.Local (store.Local.DeleteLock sum256 target) }, none⟩
    | none =>
      match pointerOf (store.Shared.ReadLock target) with
      | some sharedLock =>
        if !sharedLock.IsOwnedBy author then
          ⟨store, some (.errorf ("cannot unlock: owned by " ++ sharedLock.LockedBy))⟩
        else
          ⟨{ store with Shared := orKeep store.Shared (store.Shared.DeleteLock target) }, none⟩
      | none => ⟨store, some (.errorf ("not locked: " ++ target))⟩

end cmd

/-! ## Wording of the specification for identifiers and stored locks -/

namespace model

/-- One of the characters `0` to `9` and `a` to `f`. -/
def isLowerHex (c : Char) : Bool :=
  (decide ('0' ≤ c) && decide (c ≤ '9')) || (decide ('a' ≤ c) && decide (c ≤ 'f'))

end model

namespace storage

open model

/-- The holder written in a lock record is `author`. -/
def recordHeldBy (author : String) (f : JsonFile LockDoc) : Bool :=
  match f with
  | .doc d => decide (d.lockedBy = author)
  | .malformed _ => false

/-- Every lock record of the backend is the document that `json.MarshalIndent`
makes of some lock and sits in the file named by the digest of the target text
held in the record; and, as in every directory, no two files have the same name.
`WriteLock` leaves the backend so whenever the target it is given is valid text.
It names the file by the digest of the bytes it is given while
`json.MarshalIndent` writes a byte that is not valid UTF-8 as U+FFFD, so a
record stored for a target with such a byte is not of this kind. -/
def keyedByOwnTarget (sum256 : String → List Byte) (s : LocalStorage) : Prop :=
  (s.locks.map (fun e => e.1)).Nodup ∧
    ∀ e ∈ s.locks, ∃ (l : Lock) (d : LockDoc),
      marshalLock l = .ok d ∧ e = (hashTarget sum256 l.Target, JsonFile.doc d)

end storage

/-! ## Concrete data used by the examples -/

namespace Sample

open model storage cmd

/-- A freshly initialised repository: nothing stored. -/
def emptyStore : MultiStorage := ⟨LocalStorage.empty, ⟨".git"⟩⟩

/-- Clock reading 2023-11-14T22:13:20Z. -/
def t0 : Time := Time.ofUnix 1700000000

/-- Clock reading one minute after `t0`. -/
def t1 : Time := Time.ofUnix 1700000060

/-- Clock reading two minutes after `t0`. -/
def t2 : Time := Time.ofUnix 1700000120

/-- Clock reading half a second after `t0`. -/
def tHalf : Time := ⟨1700000000500000000⟩

/-- A random buffer. -/
def buf : RandBuf := ⟨0xde, 0xad, 0xbe, 0xef⟩

/-- The task that `task add Implement auth` by carol creates. -/
def task : Task := NewTask "Implement auth" "" "carol" false buf t0

/-- The repository after `task add Implement auth` by carol. -/
def afterAdd : MultiStorage :=
  (runTaskAdd emptyStore false "" "carol" buf t0 ["Implement", "auth"]).store

/-- The note that `add "Why JWT"` by carol creates when the clock reads half a
second past a whole second. -/
def note : Memory := NewMemory "Why JWT" "Because stateless" "carol" false buf tHalf

/-- The note that the same command creates when the clock reads a whole second. -/
def noteWhole : Memory := NewMemory "Why JWT" "Because stateless" "carol" false buf t0

/-- The repository after the note `noteWhole` was written. -/
def afterNote : MultiStorage :=
  { emptyStore with
    Local :=
      { emptyStore.Local with
        memory :=
          [("deadbeef",
            { metaJson := some (.doc
                { id := "deadbeef", title := "Why JWT", author := "carol", tags := none
                  createdAt := .rendered t0, updatedAt := .rendered t0, shared := false })
              contentMd := some "Because stateless" })] } }

/-- A task with a dependency, a comment and a completion timestamp. -/
def richTask : Task :=
  { (task.AddComment "bob" "looks good" t1 t1).Done t2 with
    Owner := "alice", BlockedBy := ["task-00000001"] }

/-- The local backend after `richTask` was written to the empty one. -/
def richStore : LocalStorage :=
  { LocalStorage.empty with tasks := [("task-deadbeef", .doc (encodeTask richTask))] }

/-- A stand-in for `sha256.Sum256` in the examples (the theorems hold for every
function in its place): the code points of the target, each reduced to a byte. -/
def digest (target : String) : List Byte :=
  target.toList.map (fun c => Fin.ofNat c.toNat)

/-- The repository after alice locked `src/auth/` at `t0`. -/
def afterLock : MultiStorage :=
  (runLock digest emptyStore false "alice" t0 t0 t0 "src/auth/").store

/-- The lock that alice holds in `afterLock`. -/
def aliceLock : Lock := NewLock "src/auth/" "alice" t0

/-- Clock reading five hours after `t0`. -/
def tLate : Time := Time.ofUnix 1700018000

/-- A stand-in for the Unicode case table in the examples (the theorems hold for
every table in its place): it knows one letter. -/
def caseTable (c : Char) : Char := if c = 'É' then 'é' else c

/-- A note with an accented title. -/
def noteCafe : Memory :=
  { ID := "0000cafe", Title := "CAFÉ Menu", Content := "Espresso", Author := "dave"
    Tags := ["Food"], CreatedAt := t0, UpdatedAt := t0, Shared := false }

/-- The local backend after `noteWhole` and `noteCafe` were written. -/
def twoNotes : LocalStorage :=
  match afterNote.Local.WriteMemory noteCafe with
  | .ok s => s
  | .error _ => afterNote.Local

/-- The local backend with a note whose metadata carries a created timestamp
that is not in the layout. -/
def badStampStore : LocalStorage :=
  { LocalStorage.empty with
    memory :=
      [("deadbeef",
        { metaJson := some (.doc
            { id := "deadbeef", title := "Why JWT", author := "carol", tags := none
              createdAt := .other "yesterday", updatedAt := .rendered t0, shared := false })
          contentMd := some "Because stateless" })] }

/-- The local backend with a note whose metadata carries a created timestamp
with a fractional second, 2023-11-14T22:13:20.5Z, which is not of the form
`YYYY-MM-DDTHH:MM:SSZ` but which `time.Parse` accepts under that layout. -/
def fractionStampStore : LocalStorage :=
  { LocalStorage.empty with
    memory :=
      [("deadbeef",
        { metaJson := some (.doc
            { id := "deadbeef", title := "Why JWT", author := "carol", tags := none
              createdAt := .rendered tHalf, updatedAt := .rendered t0, shared := false })
          contentMd := some "Because stateless" })] }

/-- A Go map with a task that is done and one that is not. -/
def taskMap (id : String) : Option Task :=
  if id = "task-00000001" then some { task with ID := "task-00000001", Status := TaskDone }
  else if id = "task-00000002" then some { task with ID := "task-00000002" }
  else none

/-- The lock that bob takes on `docs/` at `t1`. -/
def bobLock : Lock := NewLock "docs/" "bob" t1

/-- A second lock of alice, on a task, long expired at `tLate`. -/
def aliceTaskLock : Lock := NewLock "task-deadbeef" "alice" t2

/-- The local backend after `WriteLock` stored the lock of alice. -/
def oneLock : LocalStorage :=
  orKeep LocalStorage.empty (LocalStorage.empty.WriteLock digest aliceLock)

/-- The local backend after `WriteLock` stored the lock of bob as well. -/
def twoLocks : LocalStorage := orKeep oneLock (oneLock.WriteLock digest bobLock)

/-- The local backend after `WriteLock` stored the second lock of alice as well. -/
def threeLocks : LocalStorage := orKeep twoLocks (twoLocks.WriteLock digest aliceTaskLock)

/-- The task after alice claimed it. -/
def claimedTask : Task := task.Claim "alice" t1

/-- The repository after alice claimed the task. -/
def afterClaim : MultiStorage := (runTaskClaim afterAdd "alice" t1 "task-deadbeef").store

/-- The lock that `ReadLock` and `ListLocks` decode from the record that alice's
`lock` of the Latin-1 file name `src/caf`, 0xE9, `.txt` left at `t0`:
`json.MarshalIndent` wrote the byte 0xE9, which is not valid UTF-8, as U+FFFD. -/
def latin1Lock : Lock := NewLock "src/caf�.txt" "alice" t0

/-- The repository after that `lock`: `WriteLock` named the file by the digest
of the bytes of the target it was given, 73 72 63 2f 63 61 66 e9 and so on (with
the stand-in digest, the first eight bytes in hexadecimal), and the record holds
the target with U+FFFD in place of the byte 0xE9. -/
def latin1Store : MultiStorage :=
  { emptyStore with
    Local :=
      { LocalStorage.empty with
        locks :=
          [("7372632f636166e9", .doc
            { target := "src/caf�.txt", lockedBy := "alice"
              lockedAt := .rendered t0
              expiresAt := .rendered (t0.Add DefaultLockExpiry) })] } }

/-- A run that ends with the task claimed: alice claims, alice drops, bob claims. -/
def runToClaimed : List TaskCmd :=
  [.claim "alice" t1, .drop "alice" t2, .claim "bob" tLate]

/-- A run that ends with the task open again: alice claims, bob comments, alice
drops. -/
def runToOpen : List TaskCmd :=
  [.claim "alice" t1, .comment "bob" "looks good" t1 t1, .drop "alice" t2]

/-- A run that ends with the task done: alice claims and marks it done. -/
def runToDone : List TaskCmd := [.claim "alice" t1, .done t2]

/-- A run without a done command: alice claims, bob comments. -/
def runWithoutDone : List TaskCmd :=
  [.claim "alice" t1, .comment "bob" "looks good" t1 t1]

end Sample

end GitContext

/-! ## Lemmas on directories and on the JSON codecs -/

namespace GitContext

namespace storage

open model

theorem Dir.read_write_same {α : Type} (d : Dir α) (name : String) (v : α) :
    (d.write name v).read name = some v := by
  induction d with
  | nil => simp [Dir.write, Dir.read]
  | cons e rest ih =>
    obtain ⟨k, x⟩ := e
    by_cases h : k = name
    · simp [Dir.write, Dir.read, h]
    · simp [Dir.write, Dir.read, h, ih]

theorem Dir.read_write_other {α : Type} (d : Dir α) (name other : String) (v : α)
    (h : other ≠ name) : (d.write name v).read other = d.read other := by
  have h2 : ¬ name = other := fun e => h e.symm
  induction d with
  | nil => simp [Dir.write, Dir.read, h2]
  | cons e rest ih =>
    obtain ⟨k, x⟩ := e
    by_cases hk : k = name
    · subst hk
      simp [Dir.write, Dir.read, h2]
    · by_cases ho : k = other
      · subst ho
        simp [Dir.write, Dir.read, hk]
      · simp [Dir.write, Dir.read, hk, ho, ih]

theorem Dir.read_remove_same {α : Type} (d : Dir α) (name : String) :
    (d.remove name).read name = none := by
  induction d with
  | nil => simp [Dir.remove, Dir.read]
  | cons e rest ih =>
    obtain ⟨k, x⟩ := e
    by_cases h : k = name
    · simpa [Dir.remove, h] using ih
    · simpa [Dir.remove, Dir.read, h] using ih

theorem omitEmptyString_getD (s : String) : (omitEmptyString s).getD "" = s := by
  unfold omitEmptyString
  split <;> simp_all

theorem omitEmptyList_getD {α : Type} (l : List α) : (omitEmptyList l).getD [] = l := by
  cases l <;> simp [omitEmptyList]

theorem unmarshalTime_rendered (t : Time) (h : t.yearInRange = true) :
    unmarshalTime (.rendered t) = .ok t := by
  simp [unmarshalTime, timeParse, h]

theorem unmarshalTime_ok {s : TimeText} {t : Time} (h : unmarshalTime s = .ok t) :
    s = .rendered t ∧ t.yearInRange = true := by
  cases s with
  | rendered u =>
    by_cases hu : u.yearInRange = true
    · simp [unmarshalTime, timeParse, hu] at h
      simp [← h, hu]
    · simp [unmarshalTime, timeParse, hu] at h
  | other raw => simp [unmarshalTime, timeParse] at h

theorem mapExcept_unmarshalComment_encode (cs : List Comment)
    (h : cs.all (fun c => c.CreatedAt.yearInRange) = true) :
    mapExcept unmarshalComment (cs.map encodeComment) = .ok cs := by
  induction cs with
  | nil => rfl
  | cons c rest ih =>
    simp only [List.all_cons, Bool.and_eq_true] at h
    simp [mapExcept, unmarshalComment, encodeComment, unmarshalTime_rendered _ h.1, ih h.2]

theorem mapExcept_unmarshalComment_ok {ds : List CommentDoc} {cs : List Comment}
    (h : mapExcept unmarshalComment ds = .ok cs) :
    cs.all (fun c => c.CreatedAt.yearInRange) = true := by
  induction ds generalizing cs with
  | nil =>
    simp [mapExcept] at h
    subst h
    rfl
  | cons d rest ih =>
    unfold mapExcept at h
    split at h
    · cases h
    · rename_i b hb
      split at h
      · cases h
      · rename_i bs hbs
        cases h
        have hin : b.CreatedAt.yearInRange = true := by
          unfold unmarshalComment at hb
          split at hb
          · cases hb
          · rename_i t ht
            cases hb
            exact (unmarshalTime_ok ht).2
        simp [hin, ih hbs]

theorem unmarshalOptTime_map (o : Option Time) (h : o.all Time.yearInRange = true) :
    unmarshalOptTime (o.map .rendered) = .ok o := by
  cases o with
  | none => rfl
  | some t =>
    simp only [Option.all_some] at h
    simp [unmarshalOptTime, unmarshalTime_rendered _ h]

theorem unmarshalOptTime_ok {s : Option TimeText} {o : Option Time}
    (h : unmarshalOptTime s = .ok o) : o.all Time.yearInRange = true := by
  cases s with
  | none =>
    simp [unmarshalOptTime] at h
    subst h
    rfl
  | some x =>
    unfold unmarshalOptTime at h
    simp only at h
    split at h
    · cases h
    · rename_i t ht
      cases h
      simpa using (unmarshalTime_ok ht).2

/-- Decoding the document of a task gives the task back. -/
theorem unmarshalTask_encodeTask (t : Task) (h : timesInRange t = true) :
    unmarshalTask (encodeTask t) = .ok t := by
  simp only [timesInRange, Bool.and_eq_true] at h
  obtain ⟨⟨⟨h1, h2⟩, h3⟩, h4⟩ := h
  simp [unmarshalTask, encodeTask, unmarshalTime_rendered _ h1, unmarshalTime_rendered _ h2,
    unmarshalOptTime_map _ h3, omitEmptyList_getD, omitEmptyString_getD,
    mapExcept_unmarshalComment_encode _ h4]

/-- A decoded task has every timestamp in the range that can be encoded again. -/
theorem unmarshalTask_timesInRange {d : TaskDoc} {t : Task} (h : unmarshalTask d = .ok t) :
    timesInRange t = true := by
  unfold unmarshalTask at h
  split at h
  · rename_i c u o cs hc hu ho hcs
    cases h
    simp [timesInRange, (unmarshalTime_ok hc).2, (unmarshalTime_ok hu).2,
      unmarshalOptTime_ok ho, mapExcept_unmarshalComment_ok hcs]
  · cases h

theorem WriteTask_ok (s : LocalStorage) (t : Task) (h : timesInRange t = true) :
    s.WriteTask t = .ok { s with tasks := s.tasks.write t.ID (.doc (encodeTask t)) } := by
  simp [LocalStorage.WriteTask, marshalTask, h]

theorem WriteTask_ok_iff {s s1 : LocalStorage} {t : Task} (h : s.WriteTask t = .ok s1) :
    timesInRange t = true ∧ s1 = { s with tasks := s.tasks.write t.ID (.doc (encodeTask t)) } := by
  by_cases ht : timesInRange t = true
  · rw [WriteTask_ok s t ht] at h
    cases h
    exact ⟨ht, rfl⟩
  · simp [LocalStorage.WriteTask, marshalTask, ht] at h

theorem ReadTask_WriteTask {s s1 : LocalStorage} {t : Task} (h : s.WriteTask t = .ok s1) :
    s1.ReadTask t.ID = .ok (some t) := by
  obtain ⟨ht, rfl⟩ := WriteTask_ok_iff h
  simp [LocalStorage.ReadTask, Dir.read_write_same, unmarshalTask_encodeTask t ht]

theorem ReadTask_timesInRange {s : LocalStorage} {id : String} {t : Task}
    (h : s.ReadTask id = .ok (some t)) : timesInRange t = true := by
  unfold LocalStorage.ReadTask at h
  split at h
  · cases h
  · cases h
  · rename_i data hd
    split at h
    · cases h
    · rename_i u hu
      cases h
      exact unmarshalTask_timesInRange hu

end storage

end GitContext

/-! ## Lemmas on the task handlers -/

namespace GitContext

namespace cmd

open model storage

theorem findTask_local {store : MultiStorage} {id : String} {t : Task}
    (h : store.Local.ReadTask id = .ok (some t)) : findTask store id = (some t, "local") := by
  simp [findTask, h]

theorem saveTask_local_ok (store : MultiStorage) (u : Task) (msg : String)
    (h : timesInRange u = true) :
    saveTask store "local" u msg =
      ⟨{ store with
         Local := { store.Local with
                    tasks := store.Local.tasks.write u.ID (.doc (encodeTask u)) } }, none⟩ := by
  simp [saveTask, WriteTask_ok _ _ h]

theorem saveTask_local_error (store : MultiStorage) (u : Task) (msg : String)
    (h : ¬ timesInRange u = true) :
    saveTask store "local" u msg = ⟨store, some (.wrapf msg .marshalTime)⟩ := by
  simp [saveTask, LocalStorage.WriteTask, marshalTask, h]

theorem saveTask_local_read (store : MultiStorage) (u : Task) (msg : String)
    (h : timesInRange u = true) :
    (saveTask store "local" u msg).store.Local.ReadTask u.ID = .ok (some u) := by
  rw [saveTask_local_ok store u msg h]
  simp [LocalStorage.ReadTask, Dir.read_write_same, unmarshalTask_encodeTask u h]

/-- After the shared tail of the handlers ran on a task `u` that carries the
identifier of a stored task `t`, the store holds `u` or still holds `t`. -/
theorem saveTask_local_cases {store : MultiStorage} {id : String} {t : Task}
    (h : store.Local.ReadTask id = .ok (some t)) (u : Task) (hu : u.ID = id) (msg : String) :
    (saveTask store "local" u msg).store.Local.ReadTask id = .ok (some u) ∨
      (saveTask store "local" u msg).store.Local.ReadTask id = .ok (some t) := by
  by_cases hr : timesInRange u = true
  · left
    rw [← hu]
    exact saveTask_local_read store u msg hr
  · right
    rw [saveTask_local_error store u msg hr]
    exact h

/-- One invocation on a stored task either leaves the stored task as it is or
replaces it by the result of the guarded transition. -/
theorem runTaskCmd_read {store : MultiStorage} {id : String} {t : Task}
    (h : store.Local.ReadTask id = .ok (some t)) (hid : t.ID = id) (c : TaskCmd) :
    ∃ u, (runTaskCmd store id c).store.Local.ReadTask id = .ok (some u) ∧ u.ID = id ∧
      (u = t ∨
        (∃ a now, c = .claim a now ∧ ¬ (t.Status = TaskClaimed ∧ t.Owner ≠ a) ∧
          u = t.Claim a now) ∨
        (∃ a now, c = .drop a now ∧ t.Owner = a ∧ u = t.Drop now) ∨
        (∃ now, c = .done now ∧ u = t.Done now) ∨
        (∃ a m now1 now2, c = .comment a m now1 now2 ∧ u = t.AddComment a m now1 now2)) := by
  cases c with
  | claim a now =>
    by_cases hg : t.Status = TaskClaimed ∧ t.Owner ≠ a
    · refine ⟨t, ?_, hid, Or.inl rfl⟩
      simp [runTaskCmd, runTaskClaim, findTask_local h, hg, h]
    · simp only [runTaskCmd, runTaskClaim, findTask_local h, hg, if_false]
      rcases saveTask_local_cases h (t.Claim a now) hid "failed to claim: " with hr | hr
      · exact ⟨_, hr, hid, Or.inr (Or.inl ⟨a, now, rfl, hg, rfl⟩)⟩
      · exact ⟨t, hr, hid, Or.inl rfl⟩
  | drop a now =>
    by_cases hg : t.Owner = a
    · have hn : ¬ (t.Owner ≠ a) := not_not.mpr hg
      simp only [runTaskCmd, runTaskDrop, findTask_local h, if_neg hn]
      rcases saveTask_local_cases h (t.Drop now) hid "failed to drop: " with hr | hr
      · exact ⟨_, hr, hid, Or.inr (Or.inr (Or.inl ⟨a, now, rfl, hg, rfl⟩))⟩
      · exact ⟨t, hr, hid, Or.inl rfl⟩
    · refine ⟨t, ?_, hid, Or.inl rfl⟩
      simp [runTaskCmd, runTaskDrop, findTask_local h, hg, h]
  | done now =>
    simp only [runTaskCmd, runTaskDone, findTask_local h]
    rcases saveTask_local_cases h (t.Done now) hid "failed to mark done: " with hr | hr
    · exact ⟨_, hr, hid, Or.inr (Or.inr (Or.inr (Or.inl ⟨now, rfl, rfl⟩)))⟩
    · exact ⟨t, hr, hid, Or.inl rfl⟩
  | comment a m now1 now2 =>
    simp only [runTaskCmd, runTaskComment, findTask_local h]
    rcases saveTask_local_cases h (t.AddComment a m now1 now2) hid "failed to add comment: "
      with hr | hr
    · exact ⟨_, hr, hid, Or.inr (Or.inr (Or.inr (Or.inr ⟨a, m, now1, now2, rfl, rfl⟩)))⟩
    · exact ⟨t, hr, hid, Or.inl rfl⟩

theorem runTaskAdd_local_read {store : MultiStorage} {desc author : String} {bytes : RandBuf}
    {now : Time} {args : List String}
    (h : (runTaskAdd store false desc author bytes now args).err = none) :
    (runTaskAdd store false desc author bytes now args).store.Local.ReadTask
        ("task-" ++ GenerateID bytes) =
      .ok (some (NewTask (" ".intercalate args) desc author false bytes now)) := by
  have key : ∀ u : Task, u.ID = "task-" ++ GenerateID bytes →
      (match store.Local.WriteTask u with
        | .ok l => (⟨{ store with Local := l }, none⟩ : Outcome)
        | .error e => ⟨store, some (.wrapf "failed to create task: " e)⟩).err = none →
      (match store.Local.WriteTask u with
        | .ok l => (⟨{ store with Local := l }, none⟩ : Outcome)
        | .error e => ⟨store, some (.wrapf "failed to create task: " e)⟩).store.Local.ReadTask
          ("task-" ++ GenerateID bytes) = .ok (some u) := by
    intro u hu
    cases hw : store.Local.WriteTask u with
    | error e => simp
    | ok l =>
      intro _
      rw [← hu]
      exact ReadTask_WriteTask hw
  simpa [runTaskAdd] using key _ rfl (by simpa [runTaskAdd] using h)

/-- A property of the stored task that every guarded transition preserves holds
after any sequence of invocations. -/
theorem runTaskCmds_invariant (P : Task → Prop) (cmds : List TaskCmd)
    (hclaim : ∀ t a now, TaskCmd.claim a now ∈ cmds → P t →
      ¬ (t.Status = TaskClaimed ∧ t.Owner ≠ a) → P (t.Claim a now))
    (hdrop : ∀ t a now, TaskCmd.drop a now ∈ cmds → P t → t.Owner = a → P (t.Drop now))
    (hdone : ∀ t now, P t → P (t.Done now))
    (hcomment : ∀ t a m now1 now2, P t → P (t.AddComment a m now1 now2))
    {store : MultiStorage} {id : String} {t : Task}
    (h : store.Local.ReadTask id = .ok (some t)) (hid : t.ID = id) (hP : P t) :
    ∃ u, (runTaskCmds store id cmds).Local.ReadTask id = .ok (some u) ∧ P u := by
  induction cmds generalizing store t with
  | nil => exact ⟨t, h, hP⟩
  | cons c rest ih =>
    obtain ⟨u, hu, huid, hcases⟩ := runTaskCmd_read h hid c
    have hPu : P u := by
      rcases hcases with rfl | ⟨a, now, rfl, hg, rfl⟩ | ⟨a, now, rfl, hg, rfl⟩ |
          ⟨now, rfl, rfl⟩ | ⟨a, m, now1, now2, rfl, rfl⟩
      · exact hP
      · exact hclaim t a now (List.mem_cons_self _ _) hP hg
      · exact hdrop t a now (List.mem_cons_self _ _) hP hg
      · exact hdone t now hP
      · exact hcomment t a m now1 now2 hP
    exact ih (fun t a now hm => hclaim t a now (List.mem_cons_of_mem _ hm))
      (fun t a now hm => hdrop t a now (List.mem_cons_of_mem _ hm)) hu huid hPu

end cmd

end GitContext

/-! ## The task state machine -/

namespace GitContext

open model storage cmd

theorem open_ne_claimed : TaskOpen ≠ TaskClaimed := by decide

theorem open_ne_done : TaskOpen ≠ TaskDone := by decide

theorem claimed_ne_done : TaskClaimed ≠ TaskDone := by decide

/-- C1, as stated, fails: in the repository where carol added a task, alice
claims it and then marks it done; the stored task then has status done and
still has owner alice, so its owner is non-empty although it is not claimed. -/
theorem owner_iff_claimed_counterexample :
    ∃ t, (runTaskCmds Sample.afterAdd "task-deadbeef"
          [.claim "alice" Sample.t1, .done Sample.t2]).Local.ReadTask "task-deadbeef" =
        .ok (some t) ∧
      t.Status = TaskDone ∧ t.Owner = "alice" ∧ ¬ (t.Owner ≠ "" ↔ t.Status = TaskClaimed) := by
  refine ⟨_, rfl, ?_⟩
  decide

/-- C1, amended: after a task was created by `task add` and any finite sequence
of claim, drop, done and comment invocations on it by actors with non-empty
names, the task is still stored, its owner is non-empty when its status is
claimed, and its owner is empty when its status is open. -/
theorem claimed_has_owner_open_has_none (store : MultiStorage) (desc author : String)
    (bytes : RandBuf) (now : Time) (args : List String) (cmds : List TaskCmd)
    (hadd : (runTaskAdd store false desc author bytes now args).err = none)
    (hactors : ∀ c ∈ cmds, c.actor ≠ some "") :
    ∃ t, (runTaskCmds (runTaskAdd store false desc author bytes now args).store
          ("task-" ++ GenerateID bytes) cmds).Local.ReadTask ("task-" ++ GenerateID bytes) =
        .ok (some t) ∧
      (t.Status = TaskClaimed → t.Owner ≠ "") ∧ (t.Status = TaskOpen → t.Owner = "") := by
  apply runTaskCmds_invariant
    (fun t => (t.Status = TaskClaimed → t.Owner ≠ "") ∧ (t.Status = TaskOpen → t.Owner = ""))
    cmds ?_ ?_ ?_ ?_ (runTaskAdd_local_read hadd) rfl
  · exact ⟨fun h => absurd (h : TaskOpen = TaskClaimed) open_ne_claimed, fun _ => rfl⟩
  · intro t a now hm _ _
    have ha : a ≠ "" := fun e => hactors _ hm (by simp [TaskCmd.actor, e])
    exact ⟨fun _ => ha, fun h => absurd (h : TaskClaimed = TaskOpen) open_ne_claimed.symm⟩
  · intro t a now _ _ _
    exact ⟨fun h => absurd (h : TaskOpen = TaskClaimed) open_ne_claimed, fun _ => rfl⟩
  · intro t now _
    exact ⟨fun h => absurd (h : TaskDone = TaskClaimed) claimed_ne_done.symm,
      fun h => absurd (h : TaskDone = TaskOpen) open_ne_done.symm⟩
  · intro t a m now1 now2 hP
    exact hP

theorem ok_some_injective {α : Type} {a b : α}
    (h : (Except.ok (some a) : Except Err (Option α)) = .ok (some b)) : a = b := by
  injection h with h
  injection h

/-- C1, amended, at two concrete runs on the task that carol added.  After
alice claims, alice drops and bob claims, the stored task is claimed and its
owner is bob, not empty.  After alice claims, bob comments and alice drops, the
stored task is open and its owner is empty. -/
theorem claimed_has_owner_open_has_none_witness :
    (runTaskAdd Sample.emptyStore false "" "carol" Sample.buf Sample.t0
        ["Implement", "auth"]).err = none ∧
      (∀ c ∈ Sample.runToClaimed, c.actor ≠ some "") ∧
      (∀ c ∈ Sample.runToOpen, c.actor ≠ some "") ∧
      (∃ t, (runTaskCmds (runTaskAdd Sample.emptyStore false "" "carol" Sample.buf Sample.t0
              ["Implement", "auth"]).store ("task-" ++ GenerateID Sample.buf)
            Sample.runToClaimed).Local.ReadTask ("task-" ++ GenerateID Sample.buf) =
          .ok (some t) ∧
        t.Status = TaskClaimed ∧ t.Owner = "bob" ∧
        (t.Status = TaskClaimed → t.Owner ≠ "") ∧ (t.Status = TaskOpen → t.Owner = "")) ∧
      (∃ t, (runTaskCmds (runTaskAdd Sample.emptyStore false "" "carol" Sample.buf Sample.t0
              ["Implement", "auth"]).store ("task-" ++ GenerateID Sample.buf)
            Sample.runToOpen).Local.ReadTask ("task-" ++ GenerateID Sample.buf) =
          .ok (some t) ∧
        t.Status = TaskOpen ∧ t.Owner = "" ∧
        (t.Status = TaskClaimed → t.Owner ≠ "") ∧ (t.Status = TaskOpen → t.Owner = "")) := by
  obtain ⟨t, hr, h1, h2⟩ := claimed_has_owner_open_has_none Sample.emptyStore "" "carol"
    Sample.buf Sample.t0 ["Implement", "auth"] Sample.runToClaimed (by decide) (by decide)
  obtain ⟨u, hu, h3, h4⟩ := claimed_has_owner_open_has_none Sample.emptyStore "" "carol"
    Sample.buf Sample.t0 ["Implement", "auth"] Sample.runToOpen (by decide) (by decide)
  have ht : t = ((Sample.task.Claim "alice" Sample.t1).Drop Sample.t2).Claim "bob"
      Sample.tLate := ok_some_injective (hr.symm.trans rfl)
  have hu2 : u = ((Sample.task.Claim "alice" Sample.t1).AddComment "bob" "looks good"
      Sample.t1 Sample.t1).Drop Sample.t2 := ok_some_injective (hu.symm.trans rfl)
  refine ⟨by decide, by decide, by decide, ⟨t, hr, ?_, ?_, h1, h2⟩, ⟨u, hu, ?_, ?_, h3, h4⟩⟩
  · rw [ht]
    rfl
  · rw [ht]
    rfl
  · rw [hu2]
    rfl
  · rw [hu2]
    rfl

/-- C2, as stated, fails: in the repository where carol added a task, the task
is marked done and then alice claims it; the stored task then has status
claimed and still carries the completion timestamp. -/
theorem doneAt_iff_done_counterexample :
    ∃ t, (runTaskCmds Sample.afterAdd "task-deadbeef"
          [.done Sample.t1, .claim "alice" Sample.t2]).Local.ReadTask "task-deadbeef" =
        .ok (some t) ∧
      t.Status = TaskClaimed ∧ t.DoneAt = some Sample.t1 ∧
      ¬ (t.DoneAt ≠ none ↔ t.Status = TaskDone) := by
  refine ⟨_, rfl, ?_⟩
  decide

theorem timesInRange_Claim {t : Task} (a : String) {now : Time}
    (h : timesInRange t = true) (hnow : now.yearInRange = true) :
    timesInRange (t.Claim a now) = true := by
  simp only [timesInRange, Bool.and_eq_true] at h ⊢
  exact ⟨⟨⟨h.1.1.1, hnow⟩, h.1.2⟩, h.2⟩

theorem timesInRange_Drop {t : Task} {now : Time}
    (h : timesInRange t = true) (hnow : now.yearInRange = true) :
    timesInRange (t.Drop now) = true := by
  simp only [timesInRange, Bool.and_eq_true] at h ⊢
  exact ⟨⟨⟨h.1.1.1, hnow⟩, h.1.2⟩, h.2⟩

theorem timesInRange_Done {t : Task} {now : Time}
    (h : timesInRange t = true) (hnow : now.yearInRange = true) :
    timesInRange (t.Done now) = true := by
  simp only [timesInRange, Bool.and_eq_true] at h ⊢
  exact ⟨⟨⟨h.1.1.1, hnow⟩, by simpa [Task.Done] using hnow⟩, h.2⟩

theorem runTaskCmd_done_read {store : MultiStorage} {id : String} {t : Task}
    (h : store.Local.ReadTask id = .ok (some t)) (hid : t.ID = id) (d : Time)
    (hd : d.yearInRange = true) :
    (runTaskCmd store id (.done d)).store.Local.ReadTask id = .ok (some (t.Done d)) := by
  have hr : timesInRange (t.Done d) = true := timesInRange_Done (ReadTask_timesInRange h) hd
  have hread := saveTask_local_read store (t.Done d) "failed to mark done: " hr
  have hid2 : (t.Done d).ID = id := hid
  rw [hid2] at hread
  simpa only [runTaskCmd, runTaskDone, findTask_local h] using hread

/-- How one invocation changes the completion timestamp of the stored task: a
done command at a clock reading that can be written sets it to that reading, a
done command that fails and every other command leave it as it is. -/
theorem runTaskCmd_DoneAt {store : MultiStorage} {id : String} {t : Task}
    (h : store.Local.ReadTask id = .ok (some t)) (hid : t.ID = id) (c : TaskCmd) :
    ∃ u, (runTaskCmd store id c).store.Local.ReadTask id = .ok (some u) ∧ u.ID = id ∧
      (∀ d, u.DoneAt = some d → t.DoneAt = some d ∨ c = .done d) ∧
      (t.DoneAt ≠ none → u.DoneAt ≠ none) ∧
      (∀ d, c = .done d → d.yearInRange = true → u.DoneAt ≠ none) := by
  obtain ⟨u, hu, huid, hcases⟩ := runTaskCmd_read h hid c
  refine ⟨u, hu, huid, ?_, ?_, ?_⟩
  · intro d hd
    rcases hcases with rfl | ⟨a, now, rfl, _, rfl⟩ | ⟨a, now, rfl, _, rfl⟩ |
        ⟨now, rfl, rfl⟩ | ⟨a, m, now1, now2, rfl, rfl⟩
    · exact Or.inl hd
    · exact Or.inl hd
    · exact Or.inl hd
    · right
      simp only [Task.Done, Option.some.injEq] at hd
      rw [hd]
    · exact Or.inl hd
  · intro hset
    rcases hcases with rfl | ⟨a, now, rfl, _, rfl⟩ | ⟨a, now, rfl, _, rfl⟩ |
        ⟨now, rfl, rfl⟩ | ⟨a, m, now1, now2, rfl, rfl⟩
    · exact hset
    · exact hset
    · exact hset
    · simp [Task.Done]
    · exact hset
  · intro d hc hd
    subst hc
    have hdone := runTaskCmd_done_read h hid d hd
    have hud : u = t.Done d := ok_some_injective (hu.symm.trans hdone)
    rw [hud]
    simp [Task.Done]

/-- The completion timestamp of the stored task after a sequence of
invocations: it is the one the task had before or the clock reading of a done
command of the sequence; it is not cleared; and a done command at a clock
reading that can be written leaves it set. -/
theorem runTaskCmds_DoneAt (cmds : List TaskCmd) {store : MultiStorage} {id : String} {t : Task}
    (h : store.Local.ReadTask id = .ok (some t)) (hid : t.ID = id) :
    ∃ u, (runTaskCmds store id cmds).Local.ReadTask id = .ok (some u) ∧
      (∀ d, u.DoneAt = some d → t.DoneAt = some d ∨ TaskCmd.done d ∈ cmds) ∧
      (t.DoneAt ≠ none → u.DoneAt ≠ none) ∧
      (∀ d, TaskCmd.done d ∈ cmds → d.yearInRange = true → u.DoneAt ≠ none) := by
  induction cmds generalizing store t with
  | nil =>
    refine ⟨t, h, fun d hd => Or.inl hd, fun hs => hs, ?_⟩
    intro d hmem
    simp at hmem
  | cons c rest ih =>
    obtain ⟨u1, hu1, hid1, ha, hb, hc⟩ := runTaskCmd_DoneAt h hid c
    obtain ⟨u, hu, ha2, hb2, hc2⟩ := ih hu1 hid1
    refine ⟨u, hu, ?_, fun hs => hb2 (hb hs), ?_⟩
    · intro d hd
      rcases ha2 d hd with h1 | h1
      · rcases ha d h1 with h2 | h2
        · exact Or.inl h2
        · exact Or.inr (h2 ▸ List.mem_cons_self _ _)
      · exact Or.inr (List.mem_cons_of_mem _ h1)
    · intro d hmem hd
      rcases List.mem_cons.mp hmem with h1 | h1
      · exact hb2 (hc d h1.symm hd)
      · exact hc2 d h1 hd

/-- C2, amended: after a task was created by `task add` and any finite sequence
of claim, drop, done and comment invocations on it, the task is still stored
and: its completion timestamp is set when its status is done; when it is set it
is the clock reading of a done command of the sequence, so a task on which no
done ran has none; and when a done command of the sequence ran at a clock
reading that `encoding/json` can write, it is set, whatever came after (claim
and drop do not clear it). -/
theorem doneAt_set_iff_done_ran (store : MultiStorage) (desc author : String)
    (bytes : RandBuf) (now : Time) (args : List String) (cmds : List TaskCmd)
    (hadd : (runTaskAdd store false desc author bytes now args).err = none) :
    ∃ t, (runTaskCmds (runTaskAdd store false desc author bytes now args).store
          ("task-" ++ GenerateID bytes) cmds).Local.ReadTask ("task-" ++ GenerateID bytes) =
        .ok (some t) ∧
      (t.Status = TaskDone → t.DoneAt ≠ none) ∧
      (∀ d, t.DoneAt = some d → TaskCmd.done d ∈ cmds) ∧
      ((¬ ∃ d, TaskCmd.done d ∈ cmds) → t.DoneAt = none) ∧
      (∀ d, TaskCmd.done d ∈ cmds → d.yearInRange = true → t.DoneAt ≠ none) := by
  have hnew := runTaskAdd_local_read hadd
  obtain ⟨t, ht, hstatus⟩ := runTaskCmds_invariant
    (fun t => t.Status = TaskDone → t.DoneAt ≠ none) cmds
    (fun t a now _ _ _ h => absurd (h : TaskClaimed = TaskDone) claimed_ne_done)
    (fun t a now _ _ _ h => absurd (h : TaskOpen = TaskDone) open_ne_done)
    (fun t now _ _ => by simp [Task.Done])
    (fun t a m now1 now2 hP => hP)
    hnew rfl (fun h => absurd (h : TaskOpen = TaskDone) open_ne_done)
  obtain ⟨u, hu, ha, _, hc⟩ := runTaskCmds_DoneAt cmds hnew rfl
  have htu : u = t := ok_some_injective (hu.symm.trans ht)
  subst htu
  have hfrom : ∀ d, u.DoneAt = some d → TaskCmd.done d ∈ cmds := by
    intro d hd
    rcases ha d hd with h1 | h1
    · simp [NewTask] at h1
    · exact h1
  refine ⟨u, hu, hstatus, hfrom, ?_, hc⟩
  intro hno
  cases hd : u.DoneAt with
  | none => rfl
  | some d => exact absurd ⟨d, hfrom d hd⟩ hno

/-- C2, amended, at two concrete runs on the task that carol added.  After
alice claims and marks it done at `t2`, the stored task is done and its
completion timestamp is `t2`.  After alice claims and bob comments, no done
ran and the stored task has no completion timestamp. -/
theorem doneAt_set_iff_done_ran_witness :
    (runTaskAdd Sample.emptyStore false "" "carol" Sample.buf Sample.t0
        ["Implement", "auth"]).err = none ∧
      (∃ t, (runTaskCmds (runTaskAdd Sample.emptyStore false "" "carol" Sample.buf Sample.t0
              ["Implement", "auth"]).store ("task-" ++ GenerateID Sample.buf)
            Sample.runToDone).Local.ReadTask ("task-" ++ GenerateID Sample.buf) =
          .ok (some t) ∧
        t.Status = TaskDone ∧ t.DoneAt = some Sample.t2 ∧ t.DoneAt ≠ none ∧
        TaskCmd.done Sample.t2 ∈ Sample.runToDone) ∧
      (∃ t, (runTaskCmds (runTaskAdd Sample.emptyStore false "" "carol" Sample.buf Sample.t0
              ["Implement", "auth"]).store ("task-" ++ GenerateID Sample.buf)
            Sample.runWithoutDone).Local.ReadTask ("task-" ++ GenerateID Sample.buf) =
          .ok (some t) ∧
        t.Status = TaskClaimed ∧ (¬ ∃ d, TaskCmd.done d ∈ Sample.runWithoutDone) ∧
        t.DoneAt = none) := by
  obtain ⟨t, hr, h1, h2, _, _⟩ := doneAt_set_iff_done_ran Sample.emptyStore "" "carol"
    Sample.buf Sample.t0 ["Implement", "auth"] Sample.runToDone (by decide)
  obtain ⟨u, hu, _, _, h3, _⟩ := doneAt_set_iff_done_ran Sample.emptyStore "" "carol"
    Sample.buf Sample.t0 ["Implement", "auth"] Sample.runWithoutDone (by decide)
  have ht : t = (Sample.task.Claim "alice" Sample.t1).Done Sample.t2 :=
    ok_some_injective (hr.symm.trans rfl)
  have hu2 : u = (Sample.task.Claim "alice" Sample.t1).AddComment "bob" "looks good"
      Sample.t1 Sample.t1 := ok_some_injective (hu.symm.trans rfl)
  have hdone : t.Status = TaskDone := by
    rw [ht]
    rfl
  have hat : t.DoneAt = some Sample.t2 := by
    rw [ht]
    rfl
  have hno : ¬ ∃ d, TaskCmd.done d ∈ Sample.runWithoutDone := by
    rintro ⟨d, hd⟩
    simp [Sample.runWithoutDone] at hd
  refine ⟨by decide, ⟨t, hr, hdone, hat, h1 hdone, h2 Sample.t2 hat⟩, ⟨u, hu, ?_, hno, h3 hno⟩⟩
  rw [hu2]
  rfl

/-- C3: on a stored task with status open and no owner, run at a clock reading
whose year `encoding/json` can write (0 to 9999), the claim command of actor `A`
returns no error, and the task stored afterwards is the task with owner `A`,
status claimed and the new updated timestamp: identifier, title, description,
creator, created timestamp, dependencies and comments are those of before. -/
theorem claim_open_task_succeeds (store : MultiStorage) (t : Task) (A : String) (now : Time)
    (h : store.Local.ReadTask t.ID = .ok (some t))
    (hopen : t.Status = TaskOpen) (_howner : t.Owner = "")
    (hnow : now.yearInRange = true) :
    (runTaskClaim store A now t.ID).err = none ∧
      ∃ u, (runTaskClaim store A now t.ID).store.Local.ReadTask t.ID = .ok (some u) ∧
        u = { t with Owner := A, Status := TaskClaimed, UpdatedAt := now } ∧
        u.Status = TaskClaimed ∧ u.Owner = A ∧ u.ID = t.ID ∧ u.Title = t.Title ∧
        u.Description = t.Description ∧ u.CreatedBy = t.CreatedBy ∧
        u.CreatedAt = t.CreatedAt ∧ u.BlockedBy = t.BlockedBy ∧ u.Blocks = t.Blocks ∧
        u.Comments = t.Comments := by
  have hg : ¬ (t.Status = TaskClaimed ∧ t.Owner ≠ A) := by
    rw [hopen]
    exact fun hc => open_ne_claimed hc.1
  have hr : timesInRange (t.Claim A now) = true :=
    timesInRange_Claim A (ReadTask_timesInRange h) hnow
  have hrun : runTaskClaim store A now t.ID =
      saveTask store "local" (t.Claim A now) "failed to claim: " := by
    simp only [runTaskClaim, findTask_local h, if_neg hg]
  rw [hrun]
  refine ⟨by rw [saveTask_local_ok _ _ _ hr], t.Claim A now, ?_, rfl, rfl, rfl, rfl, rfl,
    rfl, rfl, rfl, rfl, rfl, rfl⟩
  exact saveTask_local_read store (t.Claim A now) _ hr

/-- C3 at a concrete run: alice claims the task that carol added. -/
theorem claim_open_task_succeeds_witness :
    Sample.afterAdd.Local.ReadTask Sample.task.ID = .ok (some Sample.task) ∧
      Sample.task.Status = TaskOpen ∧ Sample.task.Owner = "" ∧
      Sample.t1.yearInRange = true ∧
      (runTaskClaim Sample.afterAdd "alice" Sample.t1 "task-deadbeef").err = none ∧
      (runTaskClaim Sample.afterAdd "alice" Sample.t1 "task-deadbeef").store.Local.ReadTask
          "task-deadbeef" =
        .ok (some { Sample.task with
                    Owner := "alice", Status := TaskClaimed, UpdatedAt := Sample.t1 }) := by
  have key := claim_open_task_succeeds Sample.afterAdd Sample.task "alice" Sample.t1
    rfl (by decide) (by decide) (by decide)
  obtain ⟨h1, u, h2, h3, _⟩ := key
  exact ⟨rfl, by decide, by decide, by decide, h1, h3 ▸ h2⟩

/-- C4: on a stored task with status claimed and owner `A`, the claim command of
an actor `B` other than `A` returns the error `already claimed by A` and leaves
both backends exactly as they were: nothing is written, the stored task is
unchanged in every field. -/
theorem claim_by_other_actor_rejected (store : MultiStorage) (id : String) (t : Task)
    (A B : String) (now : Time)
    (h : store.Local.ReadTask id = .ok (some t))
    (hclaimed : t.Status = TaskClaimed) (howner : t.Owner = A) (hne : B ≠ A) :
    runTaskClaim store B now id = ⟨store, some (.errorf ("already claimed by " ++ A))⟩ ∧
      (runTaskClaim store B now id).store.Local.ReadTask id = .ok (some t) := by
  have hg : t.Status = TaskClaimed ∧ t.Owner ≠ B := ⟨hclaimed, fun e => hne (e.symm.trans howner)⟩
  have hrun : runTaskClaim store B now id =
      ⟨store, some (.errorf ("already claimed by " ++ A))⟩ := by
    simp only [runTaskClaim, findTask_local h, if_pos hg]
    rw [howner]
  rw [hrun]
  exact ⟨rfl, h⟩

/-- C4 at a concrete run: bob claims the task that alice holds. -/
theorem claim_by_other_actor_rejected_witness :
    Sample.afterClaim.Local.ReadTask "task-deadbeef" = .ok (some Sample.claimedTask) ∧
      Sample.claimedTask.Status = TaskClaimed ∧ Sample.claimedTask.Owner = "alice" ∧
      "bob" ≠ "alice" ∧
      runTaskClaim Sample.afterClaim "bob" Sample.t2 "task-deadbeef" =
        ⟨Sample.afterClaim, some (.errorf "already claimed by alice")⟩ ∧
      (runTaskClaim Sample.afterClaim "bob" Sample.t2 "task-deadbeef").store.Local.ReadTask
          "task-deadbeef" = .ok (some Sample.claimedTask) :=
  ⟨rfl, by decide, by decide, by decide,
    claim_by_other_actor_rejected Sample.afterClaim "task-deadbeef" Sample.claimedTask
      "alice" "bob" Sample.t2 rfl (by decide) (by decide) (by decide)⟩

/-- C5: on a stored task, the drop command of an actor is rejected (it returns
the error `not owned by you (owner: ...)` and leaves both backends exactly as
they were) if and only if the actor is not the owner recorded in the task; when
the actor is that owner and the clock reads a year that `encoding/json` can
write, it returns no error and the task stored afterwards is the task with
status open, an empty owner and the new updated timestamp. -/
theorem drop_rejected_iff_not_owner (store : MultiStorage) (t : Task) (actor : String)
    (now : Time) (h : store.Local.ReadTask t.ID = .ok (some t)) :
    (runTaskDrop store actor now t.ID =
          ⟨store, some (.errorf ("not owned by you (owner: " ++ t.Owner ++ ")"))⟩ ↔
        actor ≠ t.Owner) ∧
      (actor = t.Owner → now.yearInRange = true →
        (runTaskDrop store actor now t.ID).err = none ∧
          ∃ u, (runTaskDrop store actor now t.ID).store.Local.ReadTask t.ID = .ok (some u) ∧
            u = { t with Owner := "", Status := TaskOpen, UpdatedAt := now } ∧
            u.Status = TaskOpen ∧ u.Owner = "") := by
  by_cases ha : t.Owner = actor
  · have hn : ¬ (t.Owner ≠ actor) := not_not.mpr ha
    have hrun : runTaskDrop store actor now t.ID =
        saveTask store "local" (t.Drop now) "failed to drop: " := by
      simp only [runTaskDrop, findTask_local h, if_neg hn]
    rw [hrun]
    constructor
    · constructor
      · intro hrej
        exfalso
        by_cases hr : timesInRange (t.Drop now) = true
        · rw [saveTask_local_ok _ _ _ hr] at hrej
          have := congrArg Outcome.err hrej
          simp at this
        · rw [saveTask_local_error _ _ _ hr] at hrej
          have := congrArg Outcome.err hrej
          simp at this
      · intro hne
        exact absurd ha.symm hne
    · intro _ hnow
      have hr : timesInRange (t.Drop now) = true :=
        timesInRange_Drop (ReadTask_timesInRange h) hnow
      exact ⟨by rw [saveTask_local_ok _ _ _ hr], t.Drop now,
        saveTask_local_read store (t.Drop now) _ hr, rfl, rfl, rfl⟩
  · have hn : t.Owner ≠ actor := ha
    have hrun : runTaskDrop store actor now t.ID =
        ⟨store, some (.errorf ("not owned by you (owner: " ++ t.Owner ++ ")"))⟩ := by
      simp only [runTaskDrop, findTask_local h, if_pos hn]
    rw [hrun]
    exact ⟨⟨fun _ e => ha e.symm, fun _ => rfl⟩, fun e => absurd e.symm ha⟩

/-- C5 at a concrete run: the task that alice holds is dropped by bob (rejected)
and by alice (released). -/
theorem drop_rejected_iff_not_owner_witness :
    Sample.afterClaim.Local.ReadTask Sample.claimedTask.ID = .ok (some Sample.claimedTask) ∧
      runTaskDrop Sample.afterClaim "bob" Sample.t2 "task-deadbeef" =
        ⟨Sample.afterClaim, some (.errorf "not owned by you (owner: alice)")⟩ ∧
      (runTaskDrop Sample.afterClaim "alice" Sample.t2 "task-deadbeef").err = none := by
  have hb := drop_rejected_iff_not_owner Sample.afterClaim Sample.claimedTask "bob"
    Sample.t2 rfl
  have ha := drop_rejected_iff_not_owner Sample.afterClaim Sample.claimedTask "alice"
    Sample.t2 rfl
  exact ⟨rfl, hb.1.mpr (by decide), (ha.2 (by decide) (by decide)).1⟩

/-- C6: on a task in any status and with any owner, `Done` gives a task whose
status is done and whose completion timestamp is set and equal to the new
updated timestamp; and on a stored task the done command has no guard: run at a
clock reading whose year `encoding/json` can write, it returns no error and
stores that task. -/
theorem done_from_any_status (t : Task) (now : Time) :
    (t.Done now).Status = TaskDone ∧ (t.Done now).DoneAt = some now ∧
      (t.Done now).DoneAt ≠ none ∧ (t.Done now).DoneAt = some (t.Done now).UpdatedAt ∧
      ∀ (store : MultiStorage) (id : String), store.Local.ReadTask id = .ok (some t) →
        now.yearInRange = true →
        (runTaskDone store now id).err = none ∧
          (runTaskDone store now id).store.Local.ReadTask t.ID = .ok (some (t.Done now)) := by
  refine ⟨rfl, rfl, by simp [Task.Done], rfl, ?_⟩
  intro store id h hnow
  have hr : timesInRange (t.Done now) = true :=
    timesInRange_Done (ReadTask_timesInRange h) hnow
  have hrun : runTaskDone store now id =
      saveTask store "local" (t.Done now) "failed to mark done: " := by
    simp only [runTaskDone, findTask_local h]
  rw [hrun]
  exact ⟨by rw [saveTask_local_ok _ _ _ hr], saveTask_local_read store (t.Done now) _ hr⟩

/-- C6 at a concrete run: the task that alice holds is marked done. -/
theorem done_from_any_status_witness :
    Sample.afterClaim.Local.ReadTask "task-deadbeef" = .ok (some Sample.claimedTask) ∧
      Sample.t2.yearInRange = true ∧
      (runTaskDone Sample.afterClaim Sample.t2 "task-deadbeef").err = none ∧
      (runTaskDone Sample.afterClaim Sample.t2 "task-deadbeef").store.Local.ReadTask
          Sample.claimedTask.ID = .ok (some (Sample.claimedTask.Done Sample.t2)) :=
  ⟨rfl, by decide,
    (done_from_any_status Sample.claimedTask Sample.t2).2.2.2.2 Sample.afterClaim
      "task-deadbeef" rfl (by decide)⟩

/-! ## Round trips through the local backend -/

theorem Time.Unix_ofUnix (sec : Int) : (Time.ofUnix sec).Unix = sec := by
  simp [Time.Unix, Time.ofUnix, Time.nanosPerSecond]

theorem Time.yearInRange_truncSecond (t : Time) :
    t.truncSecond.yearInRange = t.yearInRange := by
  simp [Time.truncSecond, Time.yearInRange, Time.Unix_ofUnix]

theorem parseTime_formatSeconds (t : Time) (h : t.yearInRange = true) :
    (parseTime (formatSeconds t)).1 = t.truncSecond := by
  simp [parseTime, timeParse, formatSeconds, Time.yearInRange_truncSecond, h]

/-- What `ReadMemory` returns after `WriteMemory`, whatever the timestamps are. -/
theorem ReadMemory_WriteMemory (s : LocalStorage) (m : Memory) :
    ∃ s1, s.WriteMemory m = .ok s1 ∧
      s1.ReadMemory m.ID = .ok (some
        { m with
          CreatedAt := (parseTime (formatSeconds m.CreatedAt)).1
          UpdatedAt := (parseTime (formatSeconds m.UpdatedAt)).1 }) := by
  refine ⟨_, rfl, ?_⟩
  simp [LocalStorage.ReadMemory, Dir.read_write_same, omitEmptyList_getD]

/-- C7, as stated, fails: the note that `NewMemory` creates at a clock reading
of half a second past a whole second is written, and read back with both
timestamps at the whole second, so it differs from the note written. -/
theorem memory_round_trip_counterexample :
    ∃ s1 r, Sample.emptyStore.Local.WriteMemory Sample.note = .ok s1 ∧
      s1.ReadMemory Sample.note.ID = .ok (some r) ∧
      Sample.note.CreatedAt = ⟨1700000000500000000⟩ ∧ r.CreatedAt = ⟨1700000000000000000⟩ ∧
      r.UpdatedAt = ⟨1700000000000000000⟩ ∧ r ≠ Sample.note := by
  refine ⟨_, _, rfl, rfl, ?_⟩
  decide

/-- C7, amended: for every Memory `m` whose timestamps are UTC instants with a
year from 0 to 9999, `WriteMemory(m)` succeeds and `ReadMemory(m.ID)` then
succeeds and returns `m` with identifier, title, content, author, tags and
shared flag as written and with the created and updated timestamps cut to the
whole second; it returns `m` itself when both timestamps of `m` are whole
seconds. -/
theorem memory_round_trip_to_the_second (s : LocalStorage) (m : Memory)
    (hc : m.CreatedAt.yearInRange = true) (hu : m.UpdatedAt.yearInRange = true) :
    ∃ s1, s.WriteMemory m = .ok s1 ∧
      s1.ReadMemory m.ID = .ok (some
        { m with
          CreatedAt := m.CreatedAt.truncSecond
          UpdatedAt := m.UpdatedAt.truncSecond }) ∧
      (m.CreatedAt.truncSecond = m.CreatedAt → m.UpdatedAt.truncSecond = m.UpdatedAt →
        s1.ReadMemory m.ID = .ok (some m)) := by
  obtain ⟨s1, hw, hr⟩ := ReadMemory_WriteMemory s m
  rw [parseTime_formatSeconds _ hc, parseTime_formatSeconds _ hu] at hr
  refine ⟨s1, hw, hr, ?_⟩
  intro h1 h2
  rw [hr, h1, h2]

/-- C7, amended, at a concrete run: the note created at a whole second is read
back as written. -/
theorem memory_round_trip_to_the_second_witness :
    Sample.noteWhole.CreatedAt.yearInRange = true ∧
      Sample.noteWhole.UpdatedAt.yearInRange = true ∧
      ∃ s1, Sample.emptyStore.Local.WriteMemory Sample.noteWhole = .ok s1 ∧
        s1.ReadMemory Sample.noteWhole.ID = .ok (some Sample.noteWhole) := by
  obtain ⟨s1, hw, _, hr⟩ := memory_round_trip_to_the_second Sample.emptyStore.Local
    Sample.noteWhole (by decide) (by decide)
  exact ⟨by decide, by decide, s1, hw, hr (by decide) (by decide)⟩

/-- C8: for every task, when `WriteTask(t)` on the local backend succeeds,
`ReadTask(t.ID)` on the result succeeds and returns a task equal to `t` in every
field: status, owner, timestamps, completion timestamp, dependencies, and the
comments in their order. -/
theorem task_round_trip (s s1 : LocalStorage) (t : Task) (h : s.WriteTask t = .ok s1) :
    s1.ReadTask t.ID = .ok (some t) :=
  ReadTask_WriteTask h

/-- C8 at a concrete run: a task with a dependency, a comment and a completion
timestamp is written to the empty backend and read back. -/
theorem task_round_trip_witness :
    LocalStorage.empty.WriteTask Sample.richTask = .ok Sample.richStore ∧
      Sample.richStore.ReadTask Sample.richTask.ID = .ok (some Sample.richTask) :=
  ⟨rfl, task_round_trip LocalStorage.empty Sample.richStore Sample.richTask rfl⟩

/-! ## Deleting a note -/

/-- `DeleteMemory` returns nil on every backend state and for every identifier. -/
theorem DeleteMemory_ok (s : LocalStorage) (id : String) :
    s.DeleteMemory id = .ok { s with memory := s.memory.remove id } := rfl

/-- C9, the code at the failing inputs: in a repository that stores nothing,
`ReadMemory("deadbeef")` fails but `DeleteMemory("deadbeef")` returns nil, and
`rm deadbeef` returns nil; in the repository that `WriteMemory` left with the
note `deadbeef`, a first `rm` removes it and a second `rm` returns nil again. -/
theorem delete_absent_memory_returns_nil :
    Sample.emptyStore.Local.ReadMemory "deadbeef" =
        .error (.notExist "memory/deadbeef/meta.json") ∧
      Sample.emptyStore.Local.DeleteMemory "deadbeef" = .ok Sample.emptyStore.Local ∧
      runRm Sample.emptyStore "deadbeef" = ⟨Sample.emptyStore, none⟩ ∧
      Sample.emptyStore.Local.WriteMemory Sample.noteWhole = .ok Sample.afterNote.Local ∧
      Sample.afterNote.Local.ReadMemory "deadbeef" = .ok (some Sample.noteWhole) ∧
      runRm Sample.afterNote "deadbeef" = ⟨Sample.emptyStore, none⟩ ∧
      runRm (runRm Sample.afterNote "deadbeef").store "deadbeef" =
        ⟨Sample.emptyStore, none⟩ :=
  ⟨rfl, rfl, rfl, rfl, rfl, rfl, rfl⟩

/-! ## Locks -/

/-- C10: when a backend returns for the target a lock with holder `H` that is
not expired at the clock reading of its check, the lock command of any actor
(in particular of an actor `A` other than `H`) returns the error
`already locked by H (expires: HH:MM)` and leaves both backends exactly as they
were: nothing is written and the stored lock is unchanged. -/
theorem lock_on_held_target_rejected (sum256 : String → List Byte) (store : MultiStorage)
    (flagShared : Bool) (target H A : String) (now1 now2 now3 : Time) (l : Lock)
    (hheld : (store.Local.ReadLock sum256 target = .ok (some l) ∧ l.IsExpired now1 = false) ∨
      (store.Shared.ReadLock target = .ok (some l) ∧ l.IsExpired now2 = false))
    (hH : l.LockedBy = H) (_hne : A ≠ H) :
    runLock sum256 store flagShared A now1 now2 now3 target =
        ⟨store, some (.errorf ("already locked by " ++ H ++
          " (expires: " ++ formatClock l.ExpiresAt ++ ")"))⟩ ∧
      (runLock sum256 store flagShared A now1 now2 now3 target).store.Local.ReadLock
          sum256 target = store.Local.ReadLock sum256 target := by
  rcases hheld with ⟨hread, hexp⟩ | ⟨hread, _⟩
  · have hrun : runLock sum256 store flagShared A now1 now2 now3 target =
        ⟨store, some (.errorf ("already locked by " ++ H ++
          " (expires: " ++ formatClock l.ExpiresAt ++ ")"))⟩ := by
      simp [runLock, hread, pointerOf, Option.filter, hexp, hH]
    rw [hrun]
    exact ⟨rfl, rfl⟩
  · simp [SharedStorage.ReadLock] at hread

/-- C10 at a concrete run: alice locked `src/auth/` at `t0`; one minute later bob
asks for the same lock. -/
theorem lock_on_held_target_rejected_witness :
    Sample.afterLock.Local.ReadLock Sample.digest "src/auth/" = .ok (some Sample.aliceLock) ∧
      Sample.aliceLock.IsExpired Sample.t1 = false ∧
      Sample.aliceLock.LockedBy = "alice" ∧ "bob" ≠ "alice" ∧
      runLock Sample.digest Sample.afterLock false "bob" Sample.t1 Sample.t1 Sample.t1
          "src/auth/" =
        ⟨Sample.afterLock, some (.errorf "already locked by alice (expires: 02:13)")⟩ :=
  ⟨rfl, by decide, by decide, by decide,
    (lock_on_held_target_rejected Sample.digest Sample.afterLock false "src/auth/" "alice"
      "bob" Sample.t1 Sample.t1 Sample.t1 Sample.aliceLock (Or.inl ⟨rfl, by decide⟩)
      (by decide) (by decide)).1⟩

theorem unmarshalLock_marshalLock {l : Lock} {d : LockDoc} (h : marshalLock l = .ok d) :
    unmarshalLock d = .ok l := by
  unfold marshalLock at h
  split at h
  · rename_i hr
    simp only [Bool.and_eq_true] at hr
    cases h
    simp [unmarshalLock, unmarshalTime_rendered _ hr.1, unmarshalTime_rendered _ hr.2]
  · cases h

theorem marshalLock_ok (l : Lock) (h1 : l.LockedAt.yearInRange = true)
    (h2 : l.ExpiresAt.yearInRange = true) : ∃ d, marshalLock l = .ok d := by
  simp [marshalLock, h1, h2]

theorem ReadLock_WriteLock (sum256 : String → List Byte) {s s1 : LocalStorage} {l : Lock}
    (h : s.WriteLock sum256 l = .ok s1) : s1.ReadLock sum256 l.Target = .ok (some l) := by
  unfold LocalStorage.WriteLock at h
  split at h
  · cases h
  · rename_i d hd
    cases h
    simp [LocalStorage.ReadLock, Dir.read_write_same, unmarshalLock_marshalLock hd]

/-- C11: with the local backend selected, when the target has no lock record,
or the lock that the local backend returns for it is expired at the clock
reading of the check, the lock command of actor `A` returns no error, and
`ReadLock(target)` afterwards returns the lock with that target, holder `A`,
acquired timestamp the clock reading `now3` of `NewLock` and expiry timestamp
exactly four hours (14400000000000 ns) later, in place of any expired record.
The clock reads a year that `encoding/json` can write, four hours later too. -/
theorem lock_on_free_target_acquired (sum256 : String → List Byte) (store : MultiStorage)
    (target A : String) (now1 now2 now3 : Time)
    (hfree : store.Local.locks.read (hashTarget sum256 target) = none ∨
      ∃ l, store.Local.ReadLock sum256 target = .ok (some l) ∧ l.IsExpired now1 = true)
    (hnow : now3.yearInRange = true)
    (hlater : (now3.Add DefaultLockExpiry).yearInRange = true) :
    (runLock sum256 store false A now1 now2 now3 target).err = none ∧
      (runLock sum256 store false A now1 now2 now3 target).store.Local.ReadLock sum256 target =
        .ok (some
          { Target := target, LockedBy := A, LockedAt := now3
            ExpiresAt := ⟨now3.unixNano + 14400000000000⟩ }) := by
  have hlocal : (pointerOf (store.Local.ReadLock sum256 target)).filter
      (fun l => !l.IsExpired now1) = none := by
    rcases hfree with hnone | ⟨l, hl, hexp⟩
    · simp [LocalStorage.ReadLock, hnone, pointerOf, Option.filter]
    · simp [hl, pointerOf, Option.filter, hexp]
  obtain ⟨d, hd⟩ := marshalLock_ok (NewLock target A now3) hnow hlater
  have hw : store.Local.WriteLock sum256 (NewLock target A now3) =
      .ok { store.Local with
            locks := store.Local.locks.write (hashTarget sum256 target) (.doc d) } := by
    unfold LocalStorage.WriteLock
    rw [hd]
    rfl
  have hrun : runLock sum256 store false A now1 now2 now3 target =
      ⟨{ store with
         Local := { store.Local with
                    locks := store.Local.locks.write (hashTarget sum256 target) (.doc d) } },
        none⟩ := by
    unfold runLock
    simp only [hlocal]
    simp [SharedStorage.ReadLock, pointerOf, Option.filter, hw]
  rw [hrun]
  refine ⟨rfl, ?_⟩
  have hread := ReadLock_WriteLock sum256 hw
  simpa [NewLock, Time.Add, DefaultLockExpiry, Time.Hour, Time.nanosPerSecond] using hread

/-- C11 at a concrete run: alice locked `src/auth/` at `t0`; five hours later the
lock is expired and bob takes it. -/
theorem lock_on_free_target_acquired_witness :
    (∃ l, Sample.afterLock.Local.ReadLock Sample.digest "src/auth/" = .ok (some l) ∧
        l.IsExpired Sample.tLate = true) ∧
      Sample.tLate.yearInRange = true ∧
      (Sample.tLate.Add DefaultLockExpiry).yearInRange = true ∧
      (runLock Sample.digest Sample.afterLock false "bob" Sample.tLate Sample.tLate
          Sample.tLate "src/auth/").err = none ∧
      (runLock Sample.digest Sample.afterLock false "bob" Sample.tLate Sample.tLate
          Sample.tLate "src/auth/").store.Local.ReadLock Sample.digest "src/auth/" =
        .ok (some
          { Target := "src/auth/", LockedBy := "bob", LockedAt := Sample.tLate
            ExpiresAt := ⟨Sample.tLate.unixNano + 14400000000000⟩ }) :=
  ⟨⟨Sample.aliceLock, rfl, by decide⟩, by decide, by decide,
    lock_on_free_target_acquired Sample.digest Sample.afterLock "src/auth/" "bob"
      Sample.tLate Sample.tLate Sample.tLate
      (Or.inr ⟨Sample.aliceLock, rfl, by decide⟩) (by decide) (by decide)⟩

/-- C12: a lock is expired at `now` exactly when `now` is strictly after its
expiry timestamp, so it is not expired at the expiry instant itself; a lock
expired at `now` is expired at every later instant; and the answer depends on
the expiry timestamp only, not on target, holder or acquired timestamp. -/
theorem expired_iff_strictly_after (l : Lock) (now : Time) :
    (l.IsExpired now = true ↔ l.ExpiresAt.unixNano < now.unixNano) ∧
      l.IsExpired l.ExpiresAt = false ∧
      (∀ later : Time, l.IsExpired now = true → now.unixNano ≤ later.unixNano →
        l.IsExpired later = true) ∧
      (∀ other : Lock, other.ExpiresAt = l.ExpiresAt → other.IsExpired now = l.IsExpired now) := by
  refine ⟨by simp [Lock.IsExpired, Time.After], by simp [Lock.IsExpired, Time.After], ?_, ?_⟩
  · intro later h hle
    simp only [Lock.IsExpired, Time.After, decide_eq_true_eq] at h ⊢
    omega
  · intro other h
    simp [Lock.IsExpired, h]

theorem ReadLock_ok_record {sum256 : String → List Byte} {s : LocalStorage} {target : String}
    {l : Lock} (h : s.ReadLock sum256 target = .ok (some l)) :
    ∃ f, s.locks.read (hashTarget sum256 target) = some f := by
  cases hr : s.locks.read (hashTarget sum256 target) with
  | none => simp [LocalStorage.ReadLock, hr] at h
  | some f => exact ⟨f, rfl⟩

theorem ReadLock_DeleteLock {sum256 : String → List Byte} {s : LocalStorage} {target : String}
    {l : Lock} (h : s.ReadLock sum256 target = .ok (some l)) :
    ∃ s1, s.DeleteLock sum256 target = .ok s1 ∧
      s1.ReadLock sum256 target =
        .error (.notExist ("locks/" ++ hashTarget sum256 target ++ ".json")) := by
  obtain ⟨f, hf⟩ := ReadLock_ok_record h
  refine ⟨{ s with locks := s.locks.remove (hashTarget sum256 target) }, ?_, ?_⟩
  · simp [LocalStorage.DeleteLock, hf]
  · simp [LocalStorage.ReadLock, Dir.read_remove_same]

/-- C13: when the local backend returns for the target a lock with holder `H`
(expired or not), the unlock command for that target by a requester other than
`H` returns the error `cannot unlock: owned by H` and leaves both backends as
they were, so the lock record stays; by `H` it returns no error and
`ReadLock(target)` fails afterwards; and for a target with no lock record in the
local backend (the shared backend never returns one) it returns the error
`not locked: <target>` and changes nothing. -/
theorem unlock_by_holder_only (sum256 : String → List Byte) (store : MultiStorage)
    (target H : String) (more : List String) (l : Lock)
    (h : store.Local.ReadLock sum256 target = .ok (some l)) (hH : l.LockedBy = H) :
    (∀ R, R ≠ H →
        runUnlock sum256 store R (target :: more) =
          ⟨store, some (.errorf ("cannot unlock: owned by " ++ H))⟩) ∧
      (runUnlock sum256 store H (target :: more)).err = none ∧
      (runUnlock sum256 store H (target :: more)).store.Local.ReadLock sum256 target =
        .error (.notExist ("locks/" ++ hashTarget sum256 target ++ ".json")) ∧
      (∀ (other : MultiStorage) (absent R : String),
        other.Local.locks.read (hashTarget sum256 absent) = none →
        runUnlock sum256 other R (absent :: more) =
          ⟨other, some (.errorf ("not locked: " ++ absent))⟩) := by
  refine ⟨?_, ?_, ?_, ?_⟩
  · intro R hR
    have hne : ¬ H = R := fun e => hR e.symm
    simp [runUnlock, h, pointerOf, Lock.IsOwnedBy, hne, hH]
  · simp [runUnlock, h, pointerOf, Lock.IsOwnedBy, hH]
  · obtain ⟨s1, hd, hr⟩ := ReadLock_DeleteLock h
    simp [runUnlock, h, pointerOf, Lock.IsOwnedBy, hH, hd, orKeep, hr]
  · intro other absent R hnone
    simp [runUnlock, LocalStorage.ReadLock, hnone, pointerOf, SharedStorage.ReadLock]

/-- C13 at a concrete run: alice holds the lock on `src/auth/`; bob cannot
release it, alice can, and a target that was never locked is reported. -/
theorem unlock_by_holder_only_witness :
    Sample.afterLock.Local.ReadLock Sample.digest "src/auth/" = .ok (some Sample.aliceLock) ∧
      Sample.aliceLock.LockedBy = "alice" ∧
      runUnlock Sample.digest Sample.afterLock "bob" ["src/auth/"] =
        ⟨Sample.afterLock, some (.errorf "cannot unlock: owned by alice")⟩ ∧
      (runUnlock Sample.digest Sample.afterLock "alice" ["src/auth/"]).err = none ∧
      (runUnlock Sample.digest Sample.afterLock "alice" ["src/auth/"]).store.Local.ReadLock
          Sample.digest "src/auth/" =
        .error (.notExist ("locks/" ++ hashTarget Sample.digest "src/auth/" ++ ".json")) ∧
      runUnlock Sample.digest Sample.emptyStore "alice" ["src/auth/"] =
        ⟨Sample.emptyStore, some (.errorf "not locked: src/auth/")⟩ := by
  have key := unlock_by_holder_only Sample.digest Sample.afterLock "src/auth/" "alice" []
    Sample.aliceLock rfl (by decide)
  exact ⟨rfl, by decide, key.1 "bob" (by decide), key.2.1, key.2.2.1,
    key.2.2.2 Sample.emptyStore "src/auth/" "alice" rfl⟩

/-! ## Lookup by identifier -/

theorem findMemory_eq_from (store : MultiStorage) (id : String) :
    findMemory store id =
      findMemoryFrom (store.Local.ReadMemory id) (store.Shared.ReadMemory id) := rfl

theorem findTask_eq_from (store : MultiStorage) (id : String) :
    findTask store id = findTaskFrom (store.Local.ReadTask id) (store.Shared.ReadTask id) := rfl

theorem findMemoryFrom_spec (localRead sharedRead : Except Err (Option Memory)) :
    (∀ m, localRead = .ok (some m) → findMemoryFrom localRead sharedRead = (some m, "local")) ∧
      (∀ m, findMemoryFrom localRead sharedRead = (some m, "shared") ↔
        (¬ ∃ x, localRead = .ok (some x)) ∧ sharedRead = .ok (some m)) ∧
      (findMemoryFrom localRead sharedRead = (none, "") ↔
        (¬ ∃ x, localRead = .ok (some x)) ∧ ¬ ∃ x, sharedRead = .ok (some x)) := by
  rcases localRead with e | _ | m <;> rcases sharedRead with e2 | _ | m2 <;>
    simp [findMemoryFrom]

theorem findTaskFrom_spec (localRead sharedRead : Except Err (Option Task)) :
    (∀ t, localRead = .ok (some t) → findTaskFrom localRead sharedRead = (some t, "local")) ∧
      (∀ t, findTaskFrom localRead sharedRead = (some t, "shared") ↔
        (¬ ∃ x, localRead = .ok (some x)) ∧ sharedRead = .ok (some t)) ∧
      (findTaskFrom localRead sharedRead = (none, "") ↔
        (¬ ∃ x, localRead = .ok (some x)) ∧ ¬ ∃ x, sharedRead = .ok (some x)) := by
  rcases localRead with e | _ | t <;> rcases sharedRead with e2 | _ | t2 <;>
    simp [findTaskFrom]

/-- C14: `findMemory` and `findTask` are their bodies applied to the local and
the shared read of the identifier, and for every pair of read results: when the
local read yields an entity, that entity is returned tagged `local`, whatever
the shared read yields; the result is an entity tagged `shared` exactly when the
local read yields none and the shared read yields that entity; and the result is
not-found exactly when neither read yields an entity. -/
theorem lookup_probes_local_first (store : MultiStorage) (id : String)
    (localMemory sharedMemory : Except Err (Option Memory))
    (localTask sharedTask : Except Err (Option Task)) :
    (findMemory store id =
        findMemoryFrom (store.Local.ReadMemory id) (store.Shared.ReadMemory id) ∧
      findTask store id = findTaskFrom (store.Local.ReadTask id) (store.Shared.ReadTask id)) ∧
    ((∀ m, localMemory = .ok (some m) →
        findMemoryFrom localMemory sharedMemory = (some m, "local")) ∧
      (∀ m, findMemoryFrom localMemory sharedMemory = (some m, "shared") ↔
        (¬ ∃ x, localMemory = .ok (some x)) ∧ sharedMemory = .ok (some m)) ∧
      (findMemoryFrom localMemory sharedMemory = (none, "") ↔
        (¬ ∃ x, localMemory = .ok (some x)) ∧ ¬ ∃ x, sharedMemory = .ok (some x))) ∧
    ((∀ t, localTask = .ok (some t) → findTaskFrom localTask sharedTask = (some t, "local")) ∧
      (∀ t, findTaskFrom localTask sharedTask = (some t, "shared") ↔
        (¬ ∃ x, localTask = .ok (some x)) ∧ sharedTask = .ok (some t)) ∧
      (findTaskFrom localTask sharedTask = (none, "") ↔
        (¬ ∃ x, localTask = .ok (some x)) ∧ ¬ ∃ x, sharedTask = .ok (some x))) :=
  ⟨⟨findMemory_eq_from store id, findTask_eq_from store id⟩,
    findMemoryFrom_spec localMemory sharedMemory, findTaskFrom_spec localTask sharedTask⟩

/-! ## The shared backend -/

/-- C15, the code at the failing inputs: on the shared backend `WriteMemory` of
a note returns nil and stores nothing, so `ReadMemory` of its identifier returns
no note (and no error) and `ListMemories` is empty; `WriteTask` of a task
returns nil and `ReadTask` of its identifier returns no task; and `ReadMemory`
of an identifier that was never written returns no error either.  The local
backend returns the note and the task in the same runs. -/
theorem shared_backend_stores_nothing :
    Sample.emptyStore.Shared.WriteMemory Sample.noteWhole = .ok Sample.emptyStore.Shared ∧
      Sample.emptyStore.Shared.ReadMemory Sample.noteWhole.ID = .ok none ∧
      Sample.emptyStore.Shared.ListMemories = .ok [] ∧
      Sample.emptyStore.Shared.WriteTask Sample.richTask = .ok Sample.emptyStore.Shared ∧
      Sample.emptyStore.Shared.ReadTask Sample.richTask.ID = .ok none ∧
      Sample.emptyStore.Shared.ReadMemory "0badf00d" = .ok none ∧
      Sample.afterNote.Local.ReadMemory Sample.noteWhole.ID = .ok (some Sample.noteWhole) ∧
      Sample.richStore.ReadTask Sample.richTask.ID = .ok (some Sample.richTask) ∧
      Sample.emptyStore.Local.ReadMemory "0badf00d" =
        .error (.notExist "memory/0badf00d/meta.json") :=
  ⟨rfl, rfl, rfl, rfl, rfl, rfl, rfl, rfl, rfl⟩

/-! ## Search -/

theorem searchMemoriesLoop_eq (unicodeLower : Char → Char) (query : String)
    (results memories : List Memory) :
    searchMemoriesLoop unicodeLower query results memories =
      results ++ memories.filter (fun m => m.MatchesSearch unicodeLower query) := by
  induction memories generalizing results with
  | nil => simp [searchMemoriesLoop]
  | cons m rest ih =>
    by_cases hm : m.MatchesSearch unicodeLower query = true
    · simp [searchMemoriesLoop, hm, ih]
    · simp [searchMemoriesLoop, hm, ih]

/-- C16: for every state of the local backend and every query,
`SearchMemories(query)` is `ListMemories()` with the list filtered by
`MatchesSearch(query)`: the matching elements, in the order of the listing.  It
returns an error exactly when `ListMemories` does (the same error), and when
nothing in the listing matches it returns the empty list and no error. -/
theorem search_is_filtered_listing (unicodeLower : Char → Char) (s : LocalStorage)
    (readDirFault : Option Err) (query : String) :
    s.SearchMemories unicodeLower readDirFault query =
        (s.ListMemories readDirFault).map
          (List.filter (fun m => m.MatchesSearch unicodeLower query)) ∧
      (∀ e, s.SearchMemories unicodeLower readDirFault query = .error e ↔
        s.ListMemories readDirFault = .error e) ∧
      (∀ memories, s.ListMemories readDirFault = .ok memories →
        (∀ m ∈ memories, m.MatchesSearch unicodeLower query = false) →
        s.SearchMemories unicodeLower readDirFault query = .ok []) := by
  cases hl : s.ListMemories readDirFault with
  | error e =>
    simp [LocalStorage.SearchMemories, hl, Except.map]
  | ok memories =>
    refine ⟨?_, ?_, ?_⟩
    · simp [LocalStorage.SearchMemories, hl, Except.map, searchMemoriesLoop_eq]
    · simp [LocalStorage.SearchMemories, hl]
    · intro ms hms hnone
      cases hms
      simp only [LocalStorage.SearchMemories, hl, searchMemoriesLoop_eq, List.nil_append]
      congr 1
      exact List.filter_eq_nil_iff.mpr (fun m hm => by simp [hnone m hm])

theorem startsWithChars_iff (hay needle : List Char) :
    startsWithChars hay needle = true ↔ ∃ after, hay = needle ++ after := by
  induction needle generalizing hay with
  | nil => cases hay <;> simp [startsWithChars]
  | cons n ns ih =>
    cases hay with
    | nil => simp [startsWithChars]
    | cons h hs =>
      simp only [startsWithChars, Bool.and_eq_true, beq_iff_eq, ih, List.cons_append,
        List.cons.injEq]
      constructor
      · rintro ⟨rfl, after, rfl⟩
        exact ⟨after, rfl, rfl⟩
      · rintro ⟨after, rfl, rfl⟩
        exact ⟨rfl, after, rfl⟩

theorem containsChars_iff (hay needle : List Char) :
    containsChars hay needle = true ↔ ∃ before after, hay = before ++ needle ++ after := by
  induction hay with
  | nil =>
    simp only [containsChars, startsWithChars_iff]
    constructor
    · rintro ⟨after, h⟩
      exact ⟨[], after, by simpa using h⟩
    · rintro ⟨before, after, h⟩
      have h1 : before ++ needle ++ after = [] := h.symm
      simp only [List.append_eq_nil] at h1
      exact ⟨[], by simp [h1.1.2]⟩
  | cons h hs ih =>
    simp only [containsChars, Bool.or_eq_true, startsWithChars_iff, ih]
    constructor
    · rintro (⟨after, he⟩ | ⟨before, after, he⟩)
      · exact ⟨[], after, by simpa using he⟩
      · exact ⟨h :: before, after, by simp [he]⟩
    · rintro ⟨before, after, he⟩
      cases before with
      | nil => exact Or.inl ⟨after, by simpa using he⟩
      | cons b bs =>
        simp only [List.cons_append, List.cons.injEq] at he
        exact Or.inr ⟨bs, after, he.2⟩

theorem Contains_iff (s sub : String) : Contains s sub = true ↔ IsContiguousSubstring sub s := by
  simp [Contains, IsContiguousSubstring, containsChars_iff]

theorem toNat_ofNat_small (n : Nat) (h1 : 65 ≤ n) (h2 : n ≤ 90) :
    (Char.ofNat (n + 32)).toNat = n + 32 := by
  interval_cases n <;> rfl

theorem eq_of_toNat_eq {c d : Char} (h : c.toNat = d.toNat) : c = d := by
  have := congrArg Char.ofNat h
  simpa [Char.ofNat_toNat] using this

theorem lowerRune_upper (unicodeLower : Char → Char) (c : Char)
    (h1 : 65 ≤ c.toNat) (h2 : c.toNat ≤ 90) :
    lowerRune unicodeLower c = Char.ofNat (c.toNat + 32) := by
  have h3 : c.toNat ≤ 127 := by omega
  simp [lowerRune, h1, h2, h3]

theorem lowerRune_small (unicodeLower : Char → Char) (c : Char)
    (h1 : 65 ≤ c.toNat) (h2 : c.toNat ≤ 90) :
    lowerRune unicodeLower (Char.ofNat (c.toNat + 32)) = Char.ofNat (c.toNat + 32) := by
  have h := toNat_ofNat_small c.toNat h1 h2
  have h3 : (Char.ofNat (c.toNat + 32)).toNat ≤ 127 := by omega
  have h4 : ¬ (65 ≤ (Char.ofNat (c.toNat + 32)).toNat ∧ (Char.ofNat (c.toNat + 32)).toNat ≤ 90) := by
    omega
  simp only [lowerRune, h3, h4, if_true, if_false]

theorem lowerRune_sameAsciiLetter (unicodeLower : Char → Char) {c d : Char}
    (h : sameAsciiLetter c d = true) : lowerRune unicodeLower c = lowerRune unicodeLower d := by
  simp only [sameAsciiLetter, Bool.or_eq_true, beq_iff_eq, Bool.and_eq_true,
    decide_eq_true_eq] at h
  rcases h with (rfl | ⟨⟨h1, h2⟩, h3⟩) | ⟨⟨h1, h2⟩, h3⟩
  · rfl
  · have hd : d = Char.ofNat (c.toNat + 32) :=
      eq_of_toNat_eq (h3.trans (toNat_ofNat_small _ h1 h2).symm)
    rw [hd, lowerRune_upper _ c h1 h2, lowerRune_small _ c h1 h2]
  · have hc : c = Char.ofNat (d.toNat + 32) :=
      eq_of_toNat_eq (h3.trans (toNat_ofNat_small _ h1 h2).symm)
    rw [hc, lowerRune_upper _ d h1 h2, lowerRune_small _ d h1 h2]

theorem ToLower_sameUpToAsciiCase (unicodeLower : Char → Char) {a b : String}
    (h : sameUpToAsciiCase a b = true) : ToLower unicodeLower a = ToLower unicodeLower b := by
  have key : ∀ x y : List Char, sameUpToAsciiCaseChars x y = true →
      x.map (lowerRune unicodeLower) = y.map (lowerRune unicodeLower) := by
    intro x
    induction x with
    | nil =>
      intro y hy
      cases y with
      | nil => rfl
      | cons d ds => simp [sameUpToAsciiCaseChars] at hy
    | cons c cs ih =>
      intro y hy
      cases y with
      | nil => simp [sameUpToAsciiCaseChars] at hy
      | cons d ds =>
        simp only [sameUpToAsciiCaseChars, Bool.and_eq_true] at hy
        simp [lowerRune_sameAsciiLetter unicodeLower hy.1, ih ds hy.2]
  simp [ToLower, key a.data b.data h]

/-- C17: `MatchesSearch` of a Memory (of a Task) is true exactly when the
lower-cased query is a contiguous substring of the lower-cased title or of the
lower-cased content (description).  Hence a Memory (a Task) and a query that
differ from the given ones at most in the case of ASCII letters of the title,
the content (description) and the query, and in any way in every other field,
give the same answer. -/
theorem matches_iff_lowercased_substring (unicodeLower : Char → Char) (m : Memory) (t : Task)
    (query : String) :
    (m.MatchesSearch unicodeLower query = true ↔
        IsContiguousSubstring (ToLower unicodeLower query) (ToLower unicodeLower m.Title) ∨
          IsContiguousSubstring (ToLower unicodeLower query) (ToLower unicodeLower m.Content)) ∧
      (t.MatchesSearch unicodeLower query = true ↔
        IsContiguousSubstring (ToLower unicodeLower query) (ToLower unicodeLower t.Title) ∨
          IsContiguousSubstring (ToLower unicodeLower query)
            (ToLower unicodeLower t.Description)) ∧
      (∀ (m2 : Memory) (query2 : String), sameUpToAsciiCase query query2 = true →
        sameUpToAsciiCase m.Title m2.Title = true →
        sameUpToAsciiCase m.Content m2.Content = true →
        m2.MatchesSearch unicodeLower query2 = m.MatchesSearch unicodeLower query) ∧
      (∀ (t2 : Task) (query2 : String), sameUpToAsciiCase query query2 = true →
        sameUpToAsciiCase t.Title t2.Title = true →
        sameUpToAsciiCase t.Description t2.Description = true →
        t2.MatchesSearch unicodeLower query2 = t.MatchesSearch unicodeLower query) := by
  refine ⟨?_, ?_, ?_, ?_⟩
  · simp [Memory.MatchesSearch, Contains_iff]
  · simp [Task.MatchesSearch, Contains_iff]
  · intro m2 query2 hq ht hc
    simp only [Memory.MatchesSearch, ToLower_sameUpToAsciiCase unicodeLower hq,
      ToLower_sameUpToAsciiCase unicodeLower ht, ToLower_sameUpToAsciiCase unicodeLower hc]
  · intro t2 query2 hq ht hd
    simp only [Task.MatchesSearch, ToLower_sameUpToAsciiCase unicodeLower hq,
      ToLower_sameUpToAsciiCase unicodeLower ht, ToLower_sameUpToAsciiCase unicodeLower hd]

/-- C17 at concrete inputs: the note `Why JWT` by carol is found by `jwt` and by
`JWT`, and not by the name of its author. -/
theorem matches_iff_lowercased_substring_witness :
    sameUpToAsciiCase "jwt" "JWT" = true ∧
      Sample.noteWhole.MatchesSearch Sample.caseTable "JWT" =
        Sample.noteWhole.MatchesSearch Sample.caseTable "jwt" ∧
      Sample.noteWhole.MatchesSearch Sample.caseTable "jwt" = true ∧
      Sample.noteWhole.MatchesSearch Sample.caseTable "carol" = false :=
  ⟨by decide,
    (matches_iff_lowercased_substring Sample.caseTable Sample.noteWhole Sample.task "jwt").2.2.1
      Sample.noteWhole "JWT" (by decide) (by decide) (by decide),
    by decide, by decide⟩

/-! ## Dependencies and comments -/

theorem isBlockedLoop_iff (tasks : String → Option Task) (ids : List String) :
    isBlockedLoop tasks ids = true ↔
      ∃ id ∈ ids, ∃ b, tasks id = some b ∧ b.Status ≠ TaskDone := by
  induction ids with
  | nil => simp [isBlockedLoop]
  | cons id rest ih =>
    cases hid : tasks id with
    | none => simp [isBlockedLoop, hid, ih]
    | some b =>
      by_cases hb : b.Status = TaskDone
      · simp [isBlockedLoop, hid, hb, ih]
      · simp [isBlockedLoop, hid, hb]

/-- C18: `IsBlocked` is true exactly when some identifier of `BlockedBy` is a
key of the map whose task has a status other than done.  So a task whose
blocking identifiers all resolve to no task is not blocked, and a task with no
blocking identifiers is not blocked. -/
theorem blocked_iff_unfinished_blocker (t : Task) (tasks : String → Option Task) :
    (t.IsBlocked tasks = true ↔
        ∃ id ∈ t.BlockedBy, ∃ b, tasks id = some b ∧ b.Status ≠ TaskDone) ∧
      ((∀ id ∈ t.BlockedBy, tasks id = none) → t.IsBlocked tasks = false) ∧
      (t.BlockedBy = [] → t.IsBlocked tasks = false) := by
  have h := isBlockedLoop_iff tasks t.BlockedBy
  refine ⟨h, ?_, ?_⟩
  · intro hnone
    rw [Bool.eq_false_iff]
    intro hb
    obtain ⟨id, hmem, b, hsome, _⟩ := (isBlockedLoop_iff tasks t.BlockedBy).mp hb
    rw [hnone id hmem] at hsome
    cases hsome
  · intro hnil
    simp [Task.IsBlocked, hnil, isBlockedLoop]

/-- C18 at concrete inputs: a task blocked by a done task and by an unknown
identifier is not blocked; one blocked by an open task is. -/
theorem blocked_iff_unfinished_blocker_witness :
    ({ Sample.task with BlockedBy := ["task-00000001", "task-ffffffff"] }).IsBlocked
        Sample.taskMap = false ∧
      ({ Sample.task with BlockedBy := ["task-00000001", "task-00000002"] }).IsBlocked
        Sample.taskMap = true ∧
      ({ Sample.task with BlockedBy := ["task-ffffffff"] }).IsBlocked Sample.taskMap = false :=
  ⟨by decide, by decide,
    (blocked_iff_unfinished_blocker { Sample.task with BlockedBy := ["task-ffffffff"] }
      Sample.taskMap).2.1 (by decide)⟩

theorem timesInRange_AddComment {t : Task} (a m : String) {now1 now2 : Time}
    (h : timesInRange t = true) (h1 : now1.yearInRange = true) (h2 : now2.yearInRange = true) :
    timesInRange (t.AddComment a m now1 now2) = true := by
  simp only [timesInRange, Bool.and_eq_true] at h ⊢
  refine ⟨⟨⟨h.1.1.1, h2⟩, h.1.2⟩, ?_⟩
  simp only [Task.AddComment, List.all_append, List.all_cons, List.all_nil, Bool.and_true,
    Bool.and_eq_true]
  exact ⟨h.2, h1⟩

/-- C19: `AddComment` on a task in any status gives the task whose comments are
the previous comments, in their order, followed by one comment with that author
and content; status, owner, completion timestamp, title, description and
dependencies (and identifier, creator, created timestamp, shared flag) are as
before, and the updated timestamp is the new clock reading.  On a stored task,
at clock readings that `encoding/json` can write, the comment command returns
no error and stores that task. -/
theorem add_comment_appends_one (t : Task) (author content : String) (now1 now2 : Time) :
    (t.AddComment author content now1 now2).Comments =
        t.Comments ++ [{ Author := author, Content := content, CreatedAt := now1 }] ∧
      t.AddComment author content now1 now2 =
        { t with
          Comments := t.Comments ++ [{ Author := author, Content := content, CreatedAt := now1 }]
          UpdatedAt := now2 } ∧
      (t.AddComment author content now1 now2).Status = t.Status ∧
      (t.AddComment author content now1 now2).Owner = t.Owner ∧
      (t.AddComment author content now1 now2).DoneAt = t.DoneAt ∧
      (t.AddComment author content now1 now2).Title = t.Title ∧
      (t.AddComment author content now1 now2).Description = t.Description ∧
      (t.AddComment author content now1 now2).BlockedBy = t.BlockedBy ∧
      (t.AddComment author content now1 now2).Blocks = t.Blocks ∧
      (∀ store : MultiStorage, store.Local.ReadTask t.ID = .ok (some t) →
        now1.yearInRange = true → now2.yearInRange = true →
        (runTaskComment store author content now1 now2 t.ID).err = none ∧
          (runTaskComment store author content now1 now2 t.ID).store.Local.ReadTask t.ID =
            .ok (some (t.AddComment author content now1 now2))) := by
  refine ⟨rfl, rfl, rfl, rfl, rfl, rfl, rfl, rfl, rfl, ?_⟩
  intro store h h1 h2
  have hr : timesInRange (t.AddComment author content now1 now2) = true :=
    timesInRange_AddComment author content (ReadTask_timesInRange h) h1 h2
  have hrun : runTaskComment store author content now1 now2 t.ID =
      saveTask store "local" (t.AddComment author content now1 now2)
        "failed to add comment: " := by
    simp only [runTaskComment, findTask_local h]
  rw [hrun]
  exact ⟨by rw [saveTask_local_ok _ _ _ hr],
    saveTask_local_read store (t.AddComment author content now1 now2) _ hr⟩

/-- C19 at a concrete run: bob comments on the task that alice holds. -/
theorem add_comment_appends_one_witness :
    Sample.afterClaim.Local.ReadTask Sample.claimedTask.ID = .ok (some Sample.claimedTask) ∧
      (runTaskComment Sample.afterClaim "bob" "looks good" Sample.t2 Sample.t2
          "task-deadbeef").err = none ∧
      (runTaskComment Sample.afterClaim "bob" "looks good" Sample.t2 Sample.t2
          "task-deadbeef").store.Local.ReadTask "task-deadbeef" =
        .ok (some (Sample.claimedTask.AddComment "bob" "looks good" Sample.t2 Sample.t2)) :=
  ⟨rfl,
    (add_comment_appends_one Sample.claimedTask "bob" "looks good" Sample.t2 Sample.t2).2.2.2.2.2.2.2.2.2
      Sample.afterClaim rfl (by decide) (by decide)⟩

/-! ## Reading a malformed note -/

/-- C20, as stated, fails: the stored note `deadbeef` has a metadata record whose
created timestamp is the text `yesterday`; `ReadMemory` returns no error but the
note, with the zero time 0001-01-01T00:00:00Z as created timestamp, although
`parseTime` reports an error for that text. -/
theorem read_memory_bad_timestamp_counterexample :
    (parseTime (.other "yesterday")).2 = some .parseTime ∧
      Sample.badStampStore.ReadMemory "deadbeef" =
        .ok (some
          { ID := "deadbeef", Title := "Why JWT", Content := "Because stateless"
            Author := "carol", Tags := [], CreatedAt := ⟨-62135596800000000000⟩
            UpdatedAt := Sample.t0, Shared := false }) ∧
      ¬ ∃ e, Sample.badStampStore.ReadMemory "deadbeef" = .error e := by
  refine ⟨rfl, rfl, ?_⟩
  rintro ⟨e, he⟩
  cases he

theorem timeParse_error_zero (text : TimeText) (e : Err) (h : (timeParse text).2 = some e) :
    (timeParse text).1 = Time.zero ∧ e = .parseTime := by
  cases text with
  | rendered t =>
    by_cases ht : t.yearInRange = true
    · simp [timeParse, ht] at h
    · have hz : timeParse (.rendered t) = (Time.zero, some .parseTime) := by
        simp [timeParse, ht]
      rw [hz] at h ⊢
      exact ⟨rfl, (Option.some.inj h).symm⟩
  | other raw =>
    have hz : timeParse (.other raw) = (Time.zero, some .parseTime) := rfl
    rw [hz] at h ⊢
    exact ⟨rfl, (Option.some.inj h).symm⟩

/-- C20, amended: local `ReadMemory(id)` returns an error and no entity when the
directory of the identifier or its metadata record is missing, when the
metadata is not valid JSON, and when the content blob is missing.  When all
three are there it returns an entity and no error, whatever the timestamp texts
are.  A created or updated text for which `parseTime` reports an error (a text
outside every layout such as `yesterday`, or a year outside 0 to 9999) is read
as the zero time; a text that `time.Parse` accepts under the layout, which
includes a text with a fractional second, is read as the instant it denotes,
fraction included. -/
theorem read_memory_fails_on_missing_or_invalid_record (s : LocalStorage) (id : String) :
    (s.memory.read id = none →
        s.ReadMemory id = .error (.notExist ("memory/" ++ id ++ "/meta.json"))) ∧
      (∀ dir, s.memory.read id = some dir → dir.metaJson = none →
        s.ReadMemory id = .error (.notExist ("memory/" ++ id ++ "/meta.json"))) ∧
      (∀ dir raw, s.memory.read id = some dir → dir.metaJson = some (.malformed raw) →
        s.ReadMemory id = .error .invalidJSON) ∧
      (∀ dir d, s.memory.read id = some dir → dir.metaJson = some (.doc d) →
        dir.contentMd = none →
        s.ReadMemory id = .error (.notExist ("memory/" ++ id ++ "/content.md"))) ∧
      (∀ dir d content, s.memory.read id = some dir → dir.metaJson = some (.doc d) →
        dir.contentMd = some content →
        ∃ m, s.ReadMemory id = .ok (some m) ∧
          m.ID = d.id ∧ m.Title = d.title ∧ m.Content = content ∧ m.Author = d.author ∧
          m.Tags = d.tags.getD [] ∧ m.Shared = d.shared ∧
          m.CreatedAt = (parseTime d.createdAt).1 ∧ m.UpdatedAt = (parseTime d.updatedAt).1 ∧
          (∀ e, (parseTime d.createdAt).2 = some e → m.CreatedAt = Time.zero) ∧
          (∀ e, (parseTime d.updatedAt).2 = some e → m.UpdatedAt = Time.zero) ∧
          (∀ raw, d.createdAt = .other raw → m.CreatedAt = Time.zero) ∧
          (∀ raw, d.updatedAt = .other raw → m.UpdatedAt = Time.zero) ∧
          (∀ t, d.createdAt = .rendered t → t.yearInRange = true → m.CreatedAt = t) ∧
          (∀ t, d.updatedAt = .rendered t → t.yearInRange = true → m.UpdatedAt = t) ∧
          (∀ t, d.createdAt = .rendered t → t.yearInRange = false → m.CreatedAt = Time.zero) ∧
          (∀ t, d.updatedAt = .rendered t → t.yearInRange = false →
            m.UpdatedAt = Time.zero)) := by
  refine ⟨?_, ?_, ?_, ?_, ?_⟩
  · intro h
    simp [LocalStorage.ReadMemory, h]
  · intro dir h hm
    simp [LocalStorage.ReadMemory, h, hm]
  · intro dir raw h hm
    simp [LocalStorage.ReadMemory, h, hm]
  · intro dir d h hm hc
    simp [LocalStorage.ReadMemory, h, hm, hc]
  · intro dir d content h hm hc
    refine ⟨{ ID := d.id, Title := d.title, Content := content, Author := d.author
              Tags := d.tags.getD [], CreatedAt := (parseTime d.createdAt).1
              UpdatedAt := (parseTime d.updatedAt).1, Shared := d.shared },
      by simp only [LocalStorage.ReadMemory, h, hm, hc], rfl, rfl, rfl, rfl, rfl, rfl,
      rfl, rfl, ?_, ?_, ?_, ?_, ?_, ?_, ?_, ?_⟩
    · intro e he
      exact (timeParse_error_zero d.createdAt e he).1
    · intro e he
      exact (timeParse_error_zero d.updatedAt e he).1
    · intro raw hraw
      simp [hraw, parseTime, timeParse]
    · intro raw hraw
      simp [hraw, parseTime, timeParse]
    · intro t ht hr
      simp [ht, parseTime, timeParse, hr]
    · intro t ht hr
      simp [ht, parseTime, timeParse, hr]
    · intro t ht hr
      simp [ht, parseTime, timeParse, hr]
    · intro t ht hr
      simp [ht, parseTime, timeParse, hr]

/-- C20, amended, at concrete records: the note whose created text is
`yesterday` is read with the zero time as created timestamp, the note whose
created text is 2023-11-14T22:13:20.5Z is read with that instant, half second
included, and an identifier with no record gives an error. -/
theorem read_memory_fails_on_missing_or_invalid_record_witness :
    (∃ m, Sample.badStampStore.ReadMemory "deadbeef" = .ok (some m) ∧
        m.CreatedAt = Time.zero ∧ m.UpdatedAt = Sample.t0) ∧
      (∃ m, Sample.fractionStampStore.ReadMemory "deadbeef" = .ok (some m) ∧
        m.CreatedAt = ⟨1700000000500000000⟩ ∧ m.CreatedAt ≠ Time.zero) ∧
      Sample.badStampStore.ReadMemory "0badf00d" =
        .error (.notExist "memory/0badf00d/meta.json") := by
  have hbad := (read_memory_fails_on_missing_or_invalid_record Sample.badStampStore
    "deadbeef").2.2.2.2 _ _ _ rfl rfl rfl
  have hfrac := (read_memory_fails_on_missing_or_invalid_record Sample.fractionStampStore
    "deadbeef").2.2.2.2 _ _ _ rfl rfl rfl
  obtain ⟨m, hm, _, _, _, _, _, _, _, _, _, _, hc, _, _, hu, _, _⟩ := hbad
  obtain ⟨n, hn, _, _, _, _, _, _, _, _, _, _, _, _, hc2, _, _, _⟩ := hfrac
  have hnc : n.CreatedAt = Sample.tHalf := hc2 Sample.tHalf rfl (by decide)
  refine ⟨⟨m, hm, hc "yesterday" rfl, hu Sample.t0 rfl (by decide)⟩, ⟨n, hn, hnc, ?_⟩,
    (read_memory_fails_on_missing_or_invalid_record Sample.badStampStore "0badf00d").1 rfl⟩
  rw [hnc]
  decide

/-! ## Identifiers -/

theorem hexDigit_isLowerHex (n : Nat) : isLowerHex (hexDigit n) = true := by
  unfold hexDigit
  split <;> decide

theorem hexDigit_ne_slash (n : Nat) : hexDigit n ≠ '/' := by
  unfold hexDigit
  split <;> decide

theorem hexDigit_injective {m n : Nat} (hm : m < 16) (hn : n < 16)
    (h : hexDigit m = hexDigit n) : m = n := by
  interval_cases m <;> interval_cases n <;> first | rfl | (exact absurd h (by decide))

theorem hexByte_injective {a b : Byte} (h : hexByte a = hexByte b) : a = b := by
  simp only [hexByte, List.cons.injEq, and_true] at h
  have h1 := hexDigit_injective (by omega) (by omega) h.1
  have h2 := hexDigit_injective (Nat.mod_lt _ (by decide)) (Nat.mod_lt _ (by decide)) h.2
  apply Fin.ext
  omega

theorem GenerateID_data (bytes : RandBuf) :
    (GenerateID bytes).data =
      hexByte bytes.b0 ++ hexByte bytes.b1 ++ hexByte bytes.b2 ++ hexByte bytes.b3 := by
  simp [GenerateID, hexEncodeToString, RandBuf.toList]

theorem GenerateID_injective {a b : RandBuf} (h : GenerateID a = GenerateID b) : a = b := by
  have hd : (GenerateID a).data = (GenerateID b).data := by rw [h]
  rw [GenerateID_data, GenerateID_data] at hd
  simp only [hexByte, List.cons_append, List.nil_append, List.cons.injEq, and_true] at hd
  obtain ⟨h0, h0', h1, h1', h2, h2', h3, h3'⟩ := hd
  have e0 : a.b0 = b.b0 := hexByte_injective (by simp [hexByte, h0, h0'])
  have e1 : a.b1 = b.b1 := hexByte_injective (by simp [hexByte, h1, h1'])
  have e2 : a.b2 = b.b2 := hexByte_injective (by simp [hexByte, h2, h2'])
  have e3 : a.b3 = b.b3 := hexByte_injective (by simp [hexByte, h3, h3'])
  cases a
  cases b
  simp_all

theorem GenerateID_length (bytes : RandBuf) : (GenerateID bytes).length = 8 := by
  have h : (GenerateID bytes).data.length = 8 := by
    rw [GenerateID_data]
    simp [hexByte]
  exact h

/-- C22: for every 4-byte buffer the generated identifier has exactly 8
characters, each one of `0` to `9` or `a` to `f` (so it is not empty and holds
no `/`), and two different buffers give two different identifiers; the
identifier of a new Task is `task-` followed by that token, and it differs from
the identifier of every new Memory. -/
theorem generated_id_is_hex_token (bytes other : RandBuf) :
    (GenerateID bytes).length = 8 ∧
      (∀ c ∈ (GenerateID bytes).data, isLowerHex c = true) ∧
      GenerateID bytes ≠ "" ∧
      (∀ c ∈ (GenerateID bytes).data, c ≠ '/') ∧
      (bytes ≠ other → GenerateID bytes ≠ GenerateID other) ∧
      (∀ (title description author : String) (shared : Bool) (now : Time),
        (NewTask title description author shared bytes now).ID = "task-" ++ GenerateID bytes) ∧
      (∀ (title description author title2 content2 author2 : String) (shared shared2 : Bool)
          (now now2 : Time),
        (NewTask title description author shared bytes now).ID ≠
          (NewMemory title2 content2 author2 shared2 other now2).ID) := by
  refine ⟨GenerateID_length bytes, ?_, ?_, ?_, ?_, ?_, ?_⟩
  · intro c hc
    rw [GenerateID_data] at hc
    simp only [hexByte, List.cons_append, List.nil_append, List.mem_cons, List.not_mem_nil,
      or_false] at hc
    rcases hc with rfl | rfl | rfl | rfl | rfl | rfl | rfl | rfl <;> exact hexDigit_isLowerHex _
  · intro h
    have := GenerateID_length bytes
    rw [h] at this
    exact absurd this (by decide)
  · intro c hc
    rw [GenerateID_data] at hc
    simp only [hexByte, List.cons_append, List.nil_append, List.mem_cons, List.not_mem_nil,
      or_false] at hc
    rcases hc with rfl | rfl | rfl | rfl | rfl | rfl | rfl | rfl <;> exact hexDigit_ne_slash _
  · intro hne h
    exact hne (GenerateID_injective h)
  · intro title description author shared now
    rfl
  · intro title description author title2 content2 author2 shared shared2 now now2 h
    have hl := congrArg String.length h
    have h1 : ("task-" ++ GenerateID bytes).length = 13 := by
      rw [String.length_append, GenerateID_length]
      rfl
    have h2 : (GenerateID other).length = 8 := GenerateID_length other
    simp only [NewTask, NewMemory] at hl
    omega

/-- C22 at concrete buffers: the bytes de ad be ef give `deadbeef`, the task
identifier is `task-deadbeef`, and a buffer that differs in one byte gives
another token. -/
theorem generated_id_is_hex_token_witness :
    GenerateID Sample.buf = "deadbeef" ∧
      (NewTask "Implement auth" "" "carol" false Sample.buf Sample.t0).ID = "task-deadbeef" ∧
      GenerateID Sample.buf ≠ GenerateID ⟨0xde, 0xad, 0xbe, 0xee⟩ :=
  ⟨by decide, by decide,
    (generated_id_is_hex_token Sample.buf ⟨0xde, 0xad, 0xbe, 0xee⟩).2.2.2.2.1 (by decide)⟩

/-! ## Releasing all locks of an actor -/

theorem Dir.remove_of_read_none {α : Type} (d : Dir α) (name : String)
    (h : d.read name = none) : d.remove name = d := by
  induction d with
  | nil => rfl
  | cons e rest ih =>
    obtain ⟨k, x⟩ := e
    by_cases hk : k = name
    · simp [Dir.read, hk] at h
    · simp only [Dir.read, hk, if_false] at h
      have := ih h
      simp only [Dir.remove] at this ⊢
      simp [List.filter_cons, hk, this]

theorem DeleteLock_orKeep (sum256 : String → List Byte) (s : LocalStorage) (target : String) :
    orKeep s (s.DeleteLock sum256 target) =
      { s with locks := s.locks.remove (hashTarget sum256 target) } := by
  cases h : s.locks.read (hashTarget sum256 target) with
  | none => simp [LocalStorage.DeleteLock, h, orKeep, Dir.remove_of_read_none _ _ h]
  | some f => simp [LocalStorage.DeleteLock, h, orKeep]

theorem listLocksLoop_acc (acc : List Lock) (rest : List (String × JsonFile LockDoc)) :
    listLocksLoop acc rest = acc ++ listLocksLoop [] rest := by
  induction rest generalizing acc with
  | nil => simp [listLocksLoop]
  | cons e rest ih =>
    obtain ⟨k, f⟩ := e
    cases f with
    | malformed raw => simpa [listLocksLoop] using ih acc
    | doc d =>
      cases hu : unmarshalLock d with
      | error err => simpa [listLocksLoop, hu] using ih acc
      | ok l =>
        simp only [listLocksLoop, hu, List.nil_append]
        rw [ih (acc ++ [l]), ih [l]]
        simp

theorem unlockLocalLoop_frame (sum256 : String → List Byte) (author : String)
    (store : MultiStorage) (ls : List Lock) :
    (unlockLocalLoop sum256 author store ls).Shared = store.Shared ∧
      (unlockLocalLoop sum256 author store ls).Local.memory = store.Local.memory ∧
      (unlockLocalLoop sum256 author store ls).Local.tasks = store.Local.tasks := by
  induction ls generalizing store with
  | nil => exact ⟨rfl, rfl, rfl⟩
  | cons l rest ih =>
    by_cases ho : l.IsOwnedBy author = true
    · simp only [unlockLocalLoop, ho, if_true]
      have := ih { store with Local := orKeep store.Local (store.Local.DeleteLock sum256 l.Target) }
      rw [DeleteLock_orKeep] at this
      rw [DeleteLock_orKeep]
      exact this
    · simp only [unlockLocalLoop, ho]
      exact ih store

theorem unlockLocalLoop_locks (sum256 : String → List Byte) (author : String)
    (rest : List (String × JsonFile LockDoc))
    (hrest : ∀ e ∈ rest, ∃ (l : Lock) (d : LockDoc),
      marshalLock l = .ok d ∧ e = (hashTarget sum256 l.Target, JsonFile.doc d))
    (store : MultiStorage) :
    (unlockLocalLoop sum256 author store (listLocksLoop [] rest)).Local.locks =
      store.Local.locks.filter
        (fun x => !rest.any (fun e => recordHeldBy author e.2 && decide (e.1 = x.1))) := by
  induction rest generalizing store with
  | nil => simp [listLocksLoop, unlockLocalLoop]
  | cons e rest ih =>
    obtain ⟨l, d, hd, rfl⟩ := hrest e (List.mem_cons_self _ _)
    have hrest2 : ∀ e ∈ rest, ∃ (l : Lock) (d : LockDoc),
        marshalLock l = .ok d ∧ e = (hashTarget sum256 l.Target, JsonFile.doc d) :=
      fun e he => hrest e (List.mem_cons_of_mem _ he)
    have hu : unmarshalLock d = .ok l := unmarshalLock_marshalLock hd
    have hby : d.lockedBy = l.LockedBy := by
      unfold marshalLock at hd
      split at hd
      · cases hd
        rfl
      · cases hd
    have hlist : listLocksLoop [] ((hashTarget sum256 l.Target, JsonFile.doc d) :: rest) =
        l :: listLocksLoop [] rest := by
      simp only [listLocksLoop, hu, List.nil_append]
      rw [listLocksLoop_acc]
      rfl
    rw [hlist]
    by_cases ho : l.LockedBy = author
    · have hown : l.IsOwnedBy author = true := by simp [Lock.IsOwnedBy, ho]
      simp only [unlockLocalLoop, hown, if_true]
      rw [ih hrest2, DeleteLock_orKeep]
      simp only [Dir.remove, List.filter_filter]
      apply List.filter_congr
      intro x _
      simp only [List.any_cons, recordHeldBy, hby, ho, decide_True, Bool.true_and, Bool.not_or]
      rw [Bool.and_comm]
      simp [eq_comm]
    · have hown : ¬ l.IsOwnedBy author = true := by simp [Lock.IsOwnedBy, ho]
      simp only [unlockLocalLoop, hown, Bool.false_eq_true, if_false]
      rw [ih hrest2]
      apply List.filter_congr
      intro x _
      simp [recordHeldBy, hby, ho]

theorem any_same_name {α : Type} (d : Dir α) (p : α → Bool)
    (hn : (d.map (fun e => e.1)).Nodup) {x : String × α} (hx : x ∈ d) :
    d.any (fun e => p e.2 && decide (e.1 = x.1)) = p x.2 := by
  rw [Bool.eq_iff_iff, List.any_eq_true]
  constructor
  · rintro ⟨e, he, hpe⟩
    simp only [Bool.and_eq_true, decide_eq_true_eq] at hpe
    have : e = x := List.inj_on_of_nodup_map hn he hx hpe.2
    rw [← this]
    exact hpe.1
  · intro hp
    exact ⟨x, hx, by simp [hp]⟩

theorem Dir.read_none_of_not_mem {α : Type} (d : Dir α) (name : String)
    (h : name ∉ d.map (fun e => e.1)) : d.read name = none := by
  induction d with
  | nil => rfl
  | cons e rest ih =>
    obtain ⟨k, x⟩ := e
    simp only [List.map_cons, List.mem_cons, not_or] at h
    have hk : ¬ k = name := fun e => h.1 e.symm
    simp [Dir.read, hk, ih h.2]

theorem Dir.read_filter {α : Type} (d : Dir α) (p : String × α → Bool) (name : String)
    (hn : (d.map (fun e => e.1)).Nodup) :
    Dir.read (d.filter p) name = (d.read name).filter (fun v => p (name, v)) := by
  induction d with
  | nil => rfl
  | cons e rest ih =>
    obtain ⟨k, x⟩ := e
    simp only [List.map_cons, List.nodup_cons] at hn
    by_cases hk : k = name
    · subst hk
      by_cases hp : p (k, x) = true
      · simp [List.filter_cons, hp, Dir.read, Option.filter]
      · have hnot : k ∉ (rest.filter p).map (fun e => e.1) := fun hmem =>
          hn.1 ((List.Sublist.map _ (List.filter_sublist rest)).subset hmem)
        have hnone := Dir.read_none_of_not_mem (rest.filter p) k hnot
        simp only [List.filter_cons, hp, Dir.read, Option.filter, if_true]
        simpa [hp] using hnone
    · by_cases hp : p (k, x) = true
      · simp [List.filter_cons, hp, Dir.read, hk, ih hn.2]
      · simp [List.filter_cons, hp, Dir.read, hk, ih hn.2]

theorem Dir.mem_write {α : Type} (d : Dir α) (name : String) (v : α) {e : String × α}
    (h : e ∈ d.write name v) : e = (name, v) ∨ e ∈ d := by
  induction d with
  | nil =>
    left
    simpa [Dir.write] using h
  | cons f rest ih =>
    obtain ⟨k, x⟩ := f
    by_cases hk : k = name
    · subst hk
      simp only [Dir.write, if_true, List.mem_cons] at h
      rcases h with h | h
      · exact Or.inl h
      · exact Or.inr (List.mem_cons_of_mem _ h)
    · simp only [Dir.write, hk, if_false, List.mem_cons] at h
      rcases h with h | h
      · exact Or.inr (h ▸ List.mem_cons_self _ _)
      · rcases ih h with h2 | h2
        · exact Or.inl h2
        · exact Or.inr (List.mem_cons_of_mem _ h2)

theorem Dir.nodup_write {α : Type} (d : Dir α) (name : String) (v : α)
    (hn : (d.map (fun e => e.1)).Nodup) : ((d.write name v).map (fun e => e.1)).Nodup := by
  induction d with
  | nil => simp [Dir.write]
  | cons f rest ih =>
    obtain ⟨k, x⟩ := f
    simp only [List.map_cons, List.nodup_cons] at hn
    by_cases hk : k = name
    · subst hk
      simp only [Dir.write, if_true, List.map_cons, List.nodup_cons]
      exact hn
    · simp only [Dir.write, hk, if_false, List.map_cons, List.nodup_cons]
      refine ⟨?_, ih hn.2⟩
      intro hmem
      obtain ⟨e, he, hek⟩ := List.mem_map.mp hmem
      rcases Dir.mem_write rest name v he with h2 | h2
      · apply hk
        rw [← hek, h2]
      · exact hn.1 (List.mem_map.mpr ⟨e, h2, hek⟩)

theorem keyedByOwnTarget_empty (sum256 : String → List Byte) :
    keyedByOwnTarget sum256 LocalStorage.empty := by
  constructor
  · simp [LocalStorage.empty]
  · intro e he
    simp [LocalStorage.empty] at he

/-- A backend whose lock records each sit under the digest of their own target
text stays so when `WriteLock` stores a lock whose target is valid text, or
fails. -/
theorem keyedByOwnTarget_WriteLock (sum256 : String → List Byte) (s : LocalStorage) (l : Lock)
    (h : keyedByOwnTarget sum256 s) :
    keyedByOwnTarget sum256 (orKeep s (s.WriteLock sum256 l)) := by
  unfold LocalStorage.WriteLock
  cases hd : marshalLock l with
  | error e => simpa [orKeep] using h
  | ok d =>
    simp only [orKeep]
    constructor
    · exact Dir.nodup_write _ _ _ h.1
    · intro e he
      rcases Dir.mem_write _ _ _ he with h2 | h2
      · exact ⟨l, d, hd, h2⟩
      · exact h.2 e h2

theorem ReadLock_ok_doc {sum256 : String → List Byte} {s : LocalStorage} {target : String}
    {l : Lock} (h : s.ReadLock sum256 target = .ok (some l)) :
    ∃ d, s.locks.read (hashTarget sum256 target) = some (.doc d) ∧
      unmarshalLock d = .ok l ∧ d.lockedBy = l.LockedBy := by
  unfold LocalStorage.ReadLock at h
  split at h
  · cases h
  · cases h
  · rename_i d hd
    split at h
    · cases h
    · rename_i l2 hl
      cases h
      refine ⟨d, hd, hl, ?_⟩
      unfold unmarshalLock at hl
      split at hl
      · cases hl
        rfl
      · cases hl

theorem unlockAll_locks (sum256 : String → List Byte) (store : MultiStorage) (A : String)
    (hstored : keyedByOwnTarget sum256 store.Local) :
    (unlockAll sum256 store A).store.Local.locks =
      store.Local.locks.filter (fun e => !recordHeldBy A e.2) := by
  have hloop := unlockLocalLoop_locks sum256 A store.Local.locks hstored.2 store
  have hrun : (unlockAll sum256 store A).store =
      unlockLocalLoop sum256 A store (listLocksLoop [] store.Local.locks) := by
    simp [unlockAll, sliceOf, LocalStorage.ListLocks, SharedStorage.ListLocks, unlockSharedLoop]
  rw [hrun, hloop]
  apply List.filter_congr
  intro x hx
  rw [any_same_name store.Local.locks (recordHeldBy A) hstored.1 hx]

/-- What `unlock` without a target does when every lock record sits under the
digest of the target text it holds (the case of targets that are valid text):
run by actor `A` it returns no error and leaves in the lock directory exactly
the records whose holder is not `A`, each as it was and in the same order;
notes, tasks and the shared backend are not touched.  So a target whose lock
was held by `A` (expired or not) has no lock afterwards, and a target whose lock
was held by anyone else still has that lock. -/
theorem unlock_all_on_text_targets (sum256 : String → List Byte) (store : MultiStorage)
    (A : String) (hstored : keyedByOwnTarget sum256 store.Local) :
    (runUnlock sum256 store A []).err = none ∧
      (runUnlock sum256 store A []).store.Local.locks =
        store.Local.locks.filter (fun e => !recordHeldBy A e.2) ∧
      (runUnlock sum256 store A []).store.Local.memory = store.Local.memory ∧
      (runUnlock sum256 store A []).store.Local.tasks = store.Local.tasks ∧
      (runUnlock sum256 store A []).store.Shared = store.Shared ∧
      (∀ target l, store.Local.ReadLock sum256 target = .ok (some l) → l.LockedBy = A →
        (runUnlock sum256 store A []).store.Local.ReadLock sum256 target =
          .error (.notExist ("locks/" ++ hashTarget sum256 target ++ ".json"))) ∧
      (∀ target l, store.Local.ReadLock sum256 target = .ok (some l) → l.LockedBy ≠ A →
        (runUnlock sum256 store A []).store.Local.ReadLock sum256 target = .ok (some l)) := by
  have hrun : runUnlock sum256 store A [] = unlockAll sum256 store A := rfl
  have hstore : (unlockAll sum256 store A).store =
      unlockLocalLoop sum256 A store (listLocksLoop [] store.Local.locks) := by
    simp [unlockAll, sliceOf, LocalStorage.ListLocks, SharedStorage.ListLocks, unlockSharedLoop]
  have hlocks := unlockAll_locks sum256 store A hstored
  have hframe := unlockLocalLoop_frame sum256 A store (listLocksLoop [] store.Local.locks)
  rw [hrun]
  refine ⟨rfl, hlocks, ?_, ?_, ?_, ?_, ?_⟩
  · rw [hstore]
    exact hframe.2.1
  · rw [hstore]
    exact hframe.2.2
  · rw [hstore]
    exact hframe.1
  · intro target l hl hby
    obtain ⟨d, hd, _, hdby⟩ := ReadLock_ok_doc hl
    have hread := Dir.read_filter store.Local.locks (fun e => !recordHeldBy A e.2)
      (hashTarget sum256 target) hstored.1
    rw [hd] at hread
    have hheld : recordHeldBy A (JsonFile.doc d) = true := by
      simp [recordHeldBy, hdby, hby]
    simp only [Option.filter, hheld, Bool.not_true, Bool.false_eq_true, if_false] at hread
    simp [LocalStorage.ReadLock, hlocks, hread]
  · intro target l hl hby
    obtain ⟨d, hd, hu, hdby⟩ := ReadLock_ok_doc hl
    have hread := Dir.read_filter store.Local.locks (fun e => !recordHeldBy A e.2)
      (hashTarget sum256 target) hstored.1
    rw [hd] at hread
    have hheld : recordHeldBy A (JsonFile.doc d) = false := by
      simp [recordHeldBy, hdby, hby]
    simp only [Option.filter, hheld, Bool.not_false, if_true] at hread
    simp [LocalStorage.ReadLock, hlocks, hread, hu]

/-- The same at a concrete run with targets that are valid text: `WriteLock`
stored a lock of alice on `src/auth/`, a lock of bob on `docs/` and a lock of
alice on `task-deadbeef`; five hours later, when all three are expired,
`unlock` by alice leaves the lock of bob and nothing else. -/
theorem unlock_all_on_text_targets_example :
    keyedByOwnTarget Sample.digest Sample.threeLocks ∧
      Sample.bobLock.IsExpired Sample.tLate = true ∧
      (runUnlock Sample.digest ⟨Sample.threeLocks, ⟨".git"⟩⟩ "alice" []).err = none ∧
      (runUnlock Sample.digest ⟨Sample.threeLocks, ⟨".git"⟩⟩ "alice" []).store.Local.locks =
        [("646f63732f", JsonFile.doc
          { target := "docs/", lockedBy := "bob"
            lockedAt := .rendered Sample.t1
            expiresAt := .rendered ⟨1700014460000000000⟩ })] ∧
      (runUnlock Sample.digest ⟨Sample.threeLocks, ⟨".git"⟩⟩ "alice" []).store.Local.ReadLock
          Sample.digest "docs/" = .ok (some Sample.bobLock) ∧
      (runUnlock Sample.digest ⟨Sample.threeLocks, ⟨".git"⟩⟩ "alice" []).store.Local.ReadLock
          Sample.digest "src/auth/" =
        .error (.notExist ("locks/" ++ hashTarget Sample.digest "src/auth/" ++ ".json")) := by
  have hs : keyedByOwnTarget Sample.digest Sample.threeLocks :=
    keyedByOwnTarget_WriteLock _ _ _
      (keyedByOwnTarget_WriteLock _ _ _
        (keyedByOwnTarget_WriteLock _ _ _ (keyedByOwnTarget_empty _)))
  have key := unlock_all_on_text_targets Sample.digest ⟨Sample.threeLocks, ⟨".git"⟩⟩
    "alice" hs
  exact ⟨hs, by decide, key.1, key.2.1.trans rfl,
    key.2.2.2.2.2.2 "docs/" Sample.bobLock rfl (by decide),
    key.2.2.2.2.2.1 "src/auth/" Sample.aliceLock rfl (by decide)⟩

/-- A lock record that sits in a file not named by the digest of the target
text it holds survives `unlock` without a target, whoever runs it: for its
holder `DeleteLock` is asked for a file that is not there, its error is dropped,
and nil is returned. -/
theorem unlockAll_keeps_misnamed_record (sum256 : String → List Byte) (sh : SharedStorage)
    (name A : String) (l : Lock) (d : LockDoc) (hd : marshalLock l = .ok d)
    (hname : name ≠ hashTarget sum256 l.Target) :
    runUnlock sum256 ⟨{ memory := [], tasks := [], locks := [(name, .doc d)] }, sh⟩ A [] =
      ⟨⟨{ memory := [], tasks := [], locks := [(name, .doc d)] }, sh⟩, none⟩ := by
  have hu : unmarshalLock d = .ok l := unmarshalLock_marshalLock hd
  have hlist : listLocksLoop [] [(name, JsonFile.doc d)] = [l] := by
    simp [listLocksLoop, hu]
  have hread : Dir.read [(name, JsonFile.doc d)] (hashTarget sum256 l.Target) = none := by
    simp [Dir.read, hname]
  by_cases ho : l.IsOwnedBy A = true
  · simp [runUnlock, unlockAll, sliceOf, LocalStorage.ListLocks, SharedStorage.ListLocks,
      hlist, unlockLocalLoop, unlockSharedLoop, ho, LocalStorage.DeleteLock, hread, orKeep]
  · simp [runUnlock, unlockAll, sliceOf, LocalStorage.ListLocks, SharedStorage.ListLocks,
      hlist, unlockLocalLoop, unlockSharedLoop, ho]

/-- C21, the code at the failing input: alice ran `lock` on the Latin-1 file
name `src/caf`, 0xE9, `.txt`, which left the record of `Sample.latin1Store`, in
a file named by the digest of those bytes and with U+FFFD in the target text.
Then `unlock` without a target, run by alice, lists that lock, finds alice its
holder, asks `DeleteLock` for the target text of the record, whose digest names
no file, drops the error and returns nil: the lock record of alice is still
there, unchanged. -/
theorem unlock_all_keeps_undecodable_target :
    Sample.latin1Store.Local.ListLocks = .ok [Sample.latin1Lock] ∧
      Sample.latin1Lock.IsOwnedBy "alice" = true ∧
      hashTarget Sample.digest Sample.latin1Lock.Target = "7372632f636166fd" ∧
      Sample.latin1Store.Local.DeleteLock Sample.digest Sample.latin1Lock.Target =
        .error (.notExist "locks/7372632f636166fd.json") ∧
      runUnlock Sample.digest Sample.latin1Store "alice" [] = ⟨Sample.latin1Store, none⟩ ∧
      (runUnlock Sample.digest Sample.latin1Store "alice" []).store.Local.ListLocks =
        .ok [Sample.latin1Lock] ∧
      ¬ keyedByOwnTarget Sample.digest Sample.latin1Store.Local := by
  refine ⟨rfl, by decide, by decide, rfl, rfl, rfl, ?_⟩
  rintro ⟨_, hall⟩
  obtain ⟨l, d, hd, he⟩ := hall ("7372632f636166e9", JsonFile.doc
    { target := "src/caf�.txt", lockedBy := "alice"
      lockedAt := .rendered Sample.t0
      expiresAt := .rendered (Sample.t0.Add DefaultLockExpiry) })
    (List.mem_singleton.mpr rfl)
  simp only [Prod.mk.injEq, JsonFile.doc.injEq] at he
  obtain ⟨hkey, hdoc⟩ := he
  have htarget : l.Target = "src/caf�.txt" := by
    unfold marshalLock at hd
    split at hd
    · cases hd
      exact (congrArg LockDoc.target hdoc).symm
    · cases hd
  rw [htarget] at hkey
  exact absurd hkey (by decide)

end GitContext
